import Mathlib

/-!
Verification development for a JavaScript chess engine (src/chess-engine.js).
The definitions below are a shallow embedding of the source: JavaScript
objects become Lean structures, the mutable grid becomes a function from
linear indices to optional pieces, and methods that can throw are modelled
with the Except monad.  Source names are kept wherever Lean allows.
-/

namespace Chess

/-- Class Point: a coordinate pair.  JS numbers holding integers are
modelled as Int (coordinates go negative during scans). -/
structure Point where
  x : Int
  y : Int
deriving DecidableEq, Repr

/-- Point.add: sums coordinates of self and another point. -/
def Point.add (p other : Point) : Point :=
  ⟨p.x + other.x, p.y + other.y⟩

/-- MoveType enum: kinds of chess moves. -/
inductive MoveType where
  | move
  | capture
  | castle
  | enPassant
deriving DecidableEq, Repr

/-- The six piece classes of the source (Pawn, Rook, Knight, Bishop, King,
Queen) are modelled as one structure with a kind tag. -/
inductive PieceKind where
  | pawn
  | rook
  | knight
  | bishop
  | king
  | queen
deriving DecidableEq, Repr

/-- Class Piece: color is the raw string the constructor received
(JS compares colors with string equality), moved is the has-moved flag. -/
structure Piece where
  color : String
  kind : PieceKind
  moved : Bool
deriving DecidableEq, Repr

/-- Class Move and its subclasses CastleMove and EnpassantMove, as a sum.
The moveType field is stored exactly as the constructor received it. -/
inductive Move where
  | basic (piece : Piece) (moveType : MoveType) (from' to' : Point)
  | castleMove (piece : Piece) (moveType : MoveType) (from' to' : Point)
      (rook : Piece) (rookFrom rookTo : Point)
  | enPassantMove (piece : Piece) (moveType : MoveType) (from' to' : Point)
      (captureAt : Point)
deriving DecidableEq, Repr

/-- Accessor for the piece field shared by all Move variants. -/
def Move.piece : Move → Piece
  | .basic p _ _ _ => p
  | .castleMove p _ _ _ _ _ _ => p
  | .enPassantMove p _ _ _ _ => p

/-- Accessor for the moveType field shared by all Move variants. -/
def Move.moveType : Move → MoveType
  | .basic _ mt _ _ => mt
  | .castleMove _ mt _ _ _ _ _ => mt
  | .enPassantMove _ mt _ _ _ => mt

/-- Accessor for the origin point shared by all Move variants. -/
def Move.from' : Move → Point
  | .basic _ _ f _ => f
  | .castleMove _ _ f _ _ _ _ => f
  | .enPassantMove _ _ f _ _ => f

/-- Accessor for the destination point shared by all Move variants. -/
def Move.to' : Move → Point
  | .basic _ _ _ t => t
  | .castleMove _ _ _ t _ _ _ => t
  | .enPassantMove _ _ _ t _ => t

/-- CastleMove stores kingPositions = [from, rookTo, to]; other move
variants have no such field (modelled as the empty list). -/
def Move.kingPositions : Move → List Point
  | .castleMove _ _ f t _ _ rookTo => [f, rookTo, t]
  | _ => []

/-- Class Grid: a rectangular grid.  The JS backing array (which accepts
negative and oversized indices as ordinary properties) is modelled as a
total function from linear indices to optional pieces. -/
structure Grid where
  width : Nat
  height : Nat
  squares : Int → Option Piece

/-- The linear index the source computes for a point: the source uses
point.x + point.y * this.height in valueAt and setValueAt. -/
def Grid.idx (g : Grid) (point : Point) : Int :=
  point.x + point.y * (g.height : Int)

/-- Grid.valueAt: gets the value stored in grid at given point. -/
def Grid.valueAt (g : Grid) (point : Point) : Option Piece :=
  g.squares (g.idx point)

/-- Grid.setValueAt: stores a given value at given point. -/
def Grid.setValueAt (g : Grid) (point : Point) (value : Option Piece) : Grid :=
  { g with squares := fun i => if i = g.idx point then value else g.squares i }

/-- Grid.isInside: checks if the given point exists within size of grid. -/
def Grid.isInside (g : Grid) (point : Point) : Bool :=
  0 ≤ point.x && point.x < (g.width : Int) && 0 ≤ point.y && point.y < (g.height : Int)

/-- Grid.moveValue: moves the value stored at one point to the location of
another point; no-op when the points are equal. -/
def Grid.moveValue (g : Grid) (from' to' : Point) : Grid :=
  if from' = to' then g
  else (g.setValueAt to' (g.valueAt from')).setValueAt from' none

/-- The traversal order of Grid.each: x is the outer loop and y the inner
loop, exactly as in the source. -/
def Grid.eachPoints (g : Grid) : List Point :=
  (List.range g.width).flatMap
    (fun (x : Nat) => (List.range g.height).map (fun (y : Nat) => (⟨x, y⟩ : Point)))

/-- PieceColor.WHITE. -/
def PieceColor.WHITE : String := "w"

/-- PieceColor.BLACK. -/
def PieceColor.BLACK : String := "b"

/-- Pawn constructor: direction, chosen by color. -/
def pawnDirection (color : String) : Point :=
  if color = PieceColor.WHITE then ⟨0, -1⟩ else ⟨0, 1⟩

/-- Pawn constructor: capturingDirections, chosen by color. -/
def pawnCapturingDirections (color : String) : List Point :=
  if color = PieceColor.WHITE then [⟨-1, -1⟩, ⟨1, -1⟩] else [⟨-1, 1⟩, ⟨1, 1⟩]

/-- Pawn constructor: sides. -/
def pawnSides : List Point := [⟨-1, 0⟩, ⟨1, 0⟩]

/-- The forward-move loop of Pawn.move: at most limit iterations, stopping
at the board edge or the first occupant. -/
def pawnForward (p : Piece) (center : Point) (g : Grid) : Nat → Point → List Move
  | 0, _ => []
  | limit + 1, newPos =>
    if g.isInside newPos then
      match g.valueAt newPos with
      | some _ => []
      | none =>
        Move.basic p MoveType.move center newPos ::
          pawnForward p center g limit (newPos.add (pawnDirection p.color))
    else []

/-- Pawn.move: forward moves, diagonal captures, then en passant. -/
def pawnMove (p : Piece) (center : Point) (g : Grid) (lastMove : Option Move) : List Move :=
  let forward := pawnForward p center g (if p.moved then 1 else 2)
    (center.add (pawnDirection p.color))
  let captures := (pawnCapturingDirections p.color).filterMap (fun direction =>
    let newPos := center.add direction
    if g.isInside newPos then
      match g.valueAt newPos with
      | some existingPiece =>
        if existingPiece.color ≠ p.color then
          some (Move.basic p MoveType.capture center newPos)
        else none
      | none => none
    else none)
  let enPassant :=
    match lastMove with
    | some lm =>
      if lm.piece.kind = PieceKind.pawn ∧ lm.piece.color ≠ p.color then
        pawnSides.filterMap (fun side =>
          let sidePos := center.add side
          if g.isInside sidePos then
            let expectedStartPos := (sidePos.add (pawnDirection p.color)).add (pawnDirection p.color)
            if sidePos = lm.to' ∧ expectedStartPos = lm.from' then
              some (Move.enPassantMove p MoveType.enPassant center
                (sidePos.add (pawnDirection p.color)) sidePos)
            else none
          else none)
      else []
    | none => []
  forward ++ captures ++ enPassant

/-- The sliding loop shared by Rook.move, Bishop.move and Queen.move.
Fuel bounds the while loop; width + height steps always leave the board,
so the fuel used at call sites is never exhausted. -/
def slide (p : Piece) (center : Point) (g : Grid) (direction : Point) :
    Nat → Point → List Move
  | 0, _ => []
  | fuel + 1, newPos =>
    if g.isInside newPos then
      match g.valueAt newPos with
      | some existingPiece =>
        if existingPiece.color ≠ p.color then
          [Move.basic p MoveType.capture center newPos]
        else []
      | none =>
        Move.basic p MoveType.move center newPos ::
          slide p center g direction fuel (newPos.add direction)
    else []

/-- Rook constructor: directions. -/
def rookDirections : List Point := [⟨-1, 0⟩, ⟨0, -1⟩, ⟨1, 0⟩, ⟨0, 1⟩]

/-- Rook.move. -/
def rookMove (p : Piece) (center : Point) (g : Grid) : List Move :=
  rookDirections.flatMap (fun direction =>
    slide p center g direction (g.width + g.height) (center.add direction))

/-- Knight constructor: directions. -/
def knightDirections : List Point :=
  [⟨-2, -1⟩, ⟨-1, -2⟩, ⟨1, -2⟩, ⟨2, -1⟩, ⟨2, 1⟩, ⟨1, 2⟩, ⟨-1, 2⟩, ⟨-2, 1⟩]

/-- Knight.move. -/
def knightMove (p : Piece) (center : Point) (g : Grid) : List Move :=
  knightDirections.filterMap (fun direction =>
    let newPos := center.add direction
    if g.isInside newPos then
      match g.valueAt newPos with
      | some existingPiece =>
        if existingPiece.color ≠ p.color then
          some (Move.basic p MoveType.capture center newPos)
        else none
      | none => some (Move.basic p MoveType.move center newPos)
    else none)

/-- Bishop constructor: directions. -/
def bishopDirections : List Point := [⟨-1, -1⟩, ⟨1, -1⟩, ⟨1, 1⟩, ⟨-1, 1⟩]

/-- Bishop.move. -/
def bishopMove (p : Piece) (center : Point) (g : Grid) : List Move :=
  bishopDirections.flatMap (fun direction =>
    slide p center g direction (g.width + g.height) (center.add direction))

/-- Queen and King constructor: the eight directions. -/
def eightDirections : List Point :=
  [⟨-1, 0⟩, ⟨-1, -1⟩, ⟨0, -1⟩, ⟨1, -1⟩, ⟨1, 0⟩, ⟨1, 1⟩, ⟨0, 1⟩, ⟨-1, 1⟩]

/-- Queen.move. -/
def queenMove (p : Piece) (center : Point) (g : Grid) : List Move :=
  eightDirections.flatMap (fun direction =>
    slide p center g direction (g.width + g.height) (center.add direction))

/-- King constructor: left, chosen by color. -/
def kingLeft (color : String) : Point :=
  if color = PieceColor.WHITE then ⟨-1, 0⟩ else ⟨1, 0⟩

/-- King constructor: right, chosen by color. -/
def kingRight (color : String) : Point :=
  if color = PieceColor.WHITE then ⟨1, 0⟩ else ⟨-1, 0⟩

/-- King constructor: castleLeftOffset, chosen by color. -/
def castleLeftOffset (color : String) : Point :=
  if color = PieceColor.WHITE then ⟨-2, 0⟩ else ⟨2, 0⟩

/-- King constructor: castleRightOffset, chosen by color. -/
def castleRightOffset (color : String) : Point :=
  if color = PieceColor.WHITE then ⟨2, 0⟩ else ⟨-2, 0⟩

/-- One castling scan of King.move: walk outward from the king along the
given side; break on any occupant that is not a rook; on an unmoved rook
(of any color: the source never compares colors here) offer the castle if
the two destination squares are empty; skip past moved rooks. -/
def castleScan (p : Piece) (center : Point) (g : Grid) (side offset : Point) :
    Nat → Point → List Move
  | 0, _ => []
  | fuel + 1, newPos =>
    if g.isInside newPos then
      match g.valueAt newPos with
      | some existingPiece =>
        if existingPiece.kind ≠ PieceKind.rook then []
        else if existingPiece.moved = false then
          let rookFrom := newPos
          let rookTo := center.add side
          let kingTo := center.add offset
          if (g.valueAt kingTo).isSome then []
          else if (g.valueAt rookTo).isSome then []
          else [Move.castleMove p MoveType.castle center kingTo existingPiece rookFrom rookTo]
        else castleScan p center g side offset fuel (newPos.add side)
      | none => castleScan p center g side offset fuel (newPos.add side)
    else []

/-- King.move: regular moves, then left and right castling scans when the
king has not moved. -/
def kingMove (p : Piece) (center : Point) (g : Grid) : List Move :=
  let regular := eightDirections.filterMap (fun direction =>
    let newPos := center.add direction
    if g.isInside newPos then
      match g.valueAt newPos with
      | some existingPiece =>
        if existingPiece.color ≠ p.color then
          some (Move.basic p MoveType.capture center newPos)
        else none
      | none => some (Move.basic p MoveType.move center newPos)
    else none)
  let castles :=
    if p.moved = false then
      castleScan p center g (kingLeft p.color) (castleLeftOffset p.color)
          (g.width + g.height) (center.add (kingLeft p.color)) ++
      castleScan p center g (kingRight p.color) (castleRightOffset p.color)
          (g.width + g.height) (center.add (kingRight p.color))
    else []
  regular ++ castles

/-- Virtual dispatch of piece.move(center, grid, lastMove). -/
def pieceMove (p : Piece) (center : Point) (g : Grid) (lastMove : Option Move) : List Move :=
  match p.kind with
  | .pawn => pawnMove p center g lastMove
  | .rook => rookMove p center g
  | .knight => knightMove p center g
  | .bishop => bishopMove p center g
  | .king => kingMove p center g
  | .queen => queenMove p center g

/-- charAt as in JS: the one-character string at the index, or the empty
string when the index is out of range. -/
def charAt (s : String) (i : Nat) : String :=
  match s.toList.get? i with
  | some c => String.mk [c]
  | none => ""

/-- pieceFromCode: reads a two character code into a piece object. -/
def pieceFromCode (code : String) : Option Piece :=
  let color := charAt code 0
  match charAt code 1 with
  | "p" => some ⟨color, PieceKind.pawn, false⟩
  | "r" => some ⟨color, PieceKind.rook, false⟩
  | "n" => some ⟨color, PieceKind.knight, false⟩
  | "b" => some ⟨color, PieceKind.bishop, false⟩
  | "k" => some ⟨color, PieceKind.king, false⟩
  | "q" => some ⟨color, PieceKind.queen, false⟩
  | _ => none

/-- ChessEngine state.  The private fields #width, #height, #size and
#isGameOver become ordinary fields; moveArray is modelled like the grid
backing array, as a total function from linear indices. -/
structure Engine where
  width : Nat
  height : Nat
  size : Nat
  isGameOver : Bool
  grid : Grid
  moveArray : Int → Option (List Move)
  playingColor : String
  takenPiece : Option Piece
  lastMove : Option Move

/-- The ChessEngine constructor: positive integer dimensions are accepted,
anything else defaults to 8 by 8. -/
def mkEngine (width height : Int) : Engine :=
  let wh : Nat × Nat := if 0 < width ∧ 0 < height then (width.toNat, height.toNat) else (8, 8)
  { width := wh.1
    height := wh.2
    size := wh.1 * wh.2
    isGameOver := true
    grid := ⟨wh.1, wh.2, fun _ => none⟩
    moveArray := fun _ => none
    playingColor := PieceColor.WHITE
    takenPiece := none
    lastMove := none }

/-- ChessEngine.#step: executes a move on the grid.  The source switches on
move.moveType and then reads subclass fields; reading a field that the
variant does not carry is a JS TypeError, modelled as Except.error. -/
def step (g : Grid) (takenPiece : Option Piece) (m : Move) :
    Except String (Grid × Option Piece) :=
  match m.moveType, m with
  | MoveType.capture, _ =>
    Except.ok (g.moveValue m.from' m.to', g.valueAt m.to')
  | MoveType.move, _ =>
    if (g.valueAt m.to').isSome then
      Except.error "Cannot step moveType.MOVE to place with existing piece"
    else Except.ok (g.moveValue m.from' m.to', takenPiece)
  | MoveType.castle, Move.castleMove _ _ from' to' _ rookFrom rookTo =>
    Except.ok (((g.moveValue rookFrom rookTo).moveValue from' to'), takenPiece)
  | MoveType.castle, _ => Except.error "TypeError: rookFrom is undefined"
  | MoveType.enPassant, Move.enPassantMove _ _ from' to' captureAt =>
    Except.ok (g.moveValue from' to', g.valueAt captureAt)
  | MoveType.enPassant, _ => Except.error "TypeError: captureAt is undefined"

/-- ChessEngine.#undo: undoes a previous move made by the step function. -/
def undo (g : Grid) (takenPiece : Option Piece) (m : Move) : Except String Grid :=
  let g1 := g.moveValue m.to' m.from'
  match m.moveType, m with
  | MoveType.capture, _ => Except.ok (g1.setValueAt m.to' takenPiece)
  | MoveType.castle, Move.castleMove _ _ _ _ _ rookFrom rookTo =>
    Except.ok (g1.moveValue rookTo rookFrom)
  | MoveType.castle, _ => Except.error "TypeError: rookTo is undefined"
  | MoveType.enPassant, Move.enPassantMove _ _ _ _ captureAt =>
    Except.ok (g1.setValueAt captureAt takenPiece)
  | MoveType.enPassant, _ => Except.error "TypeError: captureAt is undefined"
  | MoveType.move, _ => Except.ok g1

/-- The single board scan at the start of ChessEngine.#validatePosition:
records the last king of the playing color seen in scan order, and every
occupied square of another color, in scan order. -/
def kingScan (g : Grid) (playingColor : String) : Option Point × List Point :=
  g.eachPoints.foldl (fun acc center =>
    match g.valueAt center with
    | none => acc
    | some piece =>
      if piece.kind = PieceKind.king ∧ piece.color = playingColor then (some center, acc.2)
      else if piece.color ≠ playingColor then (acc.1, acc.2 ++ [center])
      else acc) (none, [])

/-- The candidate moves of the occupant of a square; empty when the square
is empty (the source never reaches that case: the scanned positions are
occupied). -/
def enemyMovesAt (g : Grid) (lastMove : Option Move) (position : Point) : List Move :=
  match g.valueAt position with
  | some piece => pieceMove piece position g lastMove
  | none => []

/-- The body of the inner loop of ChessEngine.#validatePosition: does this
one enemy candidate move cause rejection of the validated move m? -/
def threatens (kingPosition : Point) (m : Move) (enemyMove : Move) : Bool :=
  if enemyMove.moveType ≠ MoveType.capture ∧ m.moveType ≠ MoveType.castle then false
  else if kingPosition = enemyMove.to' then true
  else if m.moveType = MoveType.castle then
    m.kingPositions.any (fun kp => kp = enemyMove.to')
  else false

/-- ChessEngine.#validatePosition: after stepping, make sure the same color
king is not left in check. -/
def validatePosition (g : Grid) (playingColor : String) (lastMove : Option Move)
    (m : Move) : Bool :=
  match kingScan g playingColor with
  | (none, _) => false
  | (some kingPosition, enemyPositions) =>
    !(enemyPositions.any (fun position =>
      (enemyMovesAt g lastMove position).any (threatens kingPosition m)))

/-- ChessEngine.#resetMoveArray: clears the lists of moves for the first
size slots of the move array. -/
def resetMoveArray (size : Nat) (moveArray : Int → Option (List Move)) :
    Int → Option (List Move) :=
  fun i => if 0 ≤ i ∧ i < (size : Int) then some [] else moveArray i

/-- The mutable engine fields threaded through ChessEngine.#precomputeMoves,
plus its running count of valid moves. -/
structure PrecomputeState where
  validMoveCount : Nat
  grid : Grid
  takenPiece : Option Piece
  moveArray : Int → Option (List Move)

/-- The body of the inner moves.forEach of ChessEngine.#precomputeMoves:
check the generated move is inside the board, step, keep it when the
position validates, then undo. -/
def precomputeInner (playingColor : String) (lastMove : Option Move) (piece : Piece)
    (st : Grid × Option Piece × List Move) (m : Move) :
    Except String (Grid × Option Piece × List Move) :=
  if st.1.isInside m.to' = false then Except.error "Invalid move generated"
  else do
    let (g1, t1) ← step st.1 st.2.1 m
    let validMoves :=
      if piece.color = playingColor ∧ validatePosition g1 playingColor lastMove m then
        st.2.2 ++ [m]
      else st.2.2
    let g2 ← undo g1 t1 m
    pure (g2, t1, validMoves)

/-- The body of the outer grid.each of ChessEngine.#precomputeMoves. -/
def precomputeCenter (width : Nat) (playingColor : String) (lastMove : Option Move)
    (st : PrecomputeState) (center : Point) : Except String PrecomputeState :=
  match st.grid.valueAt center with
  | none => pure st
  | some piece =>
    if piece.color ≠ playingColor then pure st
    else do
      let moves := pieceMove piece center st.grid lastMove
      let (g2, t2, validMoves) ←
        moves.foldlM (precomputeInner playingColor lastMove piece)
          (st.grid, st.takenPiece, [])
      pure ⟨st.validMoveCount + validMoves.length, g2, t2,
        fun i => if i = center.x + center.y * (width : Int) then some validMoves
                 else st.moveArray i⟩

/-- ChessEngine.#precomputeMoves: calculates all valid moves for the current
board state and playing color.  The width and size parameters are the
private engine fields used for move-array indexing and reset. -/
def precomputeMoves (width size : Nat) (g : Grid) (playingColor : String)
    (lastMove : Option Move) (takenPiece : Option Piece)
    (moveArray : Int → Option (List Move)) : Except String PrecomputeState :=
  g.eachPoints.foldlM (precomputeCenter width playingColor lastMove)
    ⟨0, g, takenPiece, resetMoveArray size moveArray⟩

/-- The insertion loop of ChessEngine.init: square i of the layout goes to
the point (i % width, i / width). -/
def insertLayout (width size : Nat) (layout : List String) (g0 : Grid) : Grid :=
  (List.range size).foldl (fun g i =>
    g.setValueAt ⟨((i % width : Nat) : Int), ((i / width : Nat) : Int)⟩
      (pieceFromCode (layout.getD i ""))) g0

/-- ChessEngine.init: validate the layout length, insert the pieces, reset
the game variables, precompute moves. -/
def ChessEngine.init (e : Engine) (layout : List String) : Except String Engine :=
  if layout.length ≠ e.size then Except.error "Invalid plan size"
  else do
    let g := insertLayout e.width e.size layout e.grid
    let st ← precomputeMoves e.width e.size g PieceColor.WHITE none none e.moveArray
    pure { e with grid := st.grid
                  moveArray := st.moveArray
                  playingColor := PieceColor.WHITE
                  takenPiece := st.takenPiece
                  lastMove := none
                  isGameOver := false }

/-- ChessEngine.getMovesAtPoint: retrieves computed valid moves at a point;
the slot index uses the engine width. -/
def ChessEngine.getMovesAtPoint (e : Engine) (point : Point) : Option (List Move) :=
  e.moveArray (point.x + point.y * (e.width : Int))

/-- ChessEngine.getState: the list of pieces and their point on the board,
in grid scan order. -/
def ChessEngine.getState (e : Engine) : List (Piece × Point) :=
  e.grid.eachPoints.filterMap (fun center =>
    (e.grid.valueAt center).map (fun piece => (piece, center)))

/-- ChessEngine.#swapPlayingColor. -/
def swapPlayingColor (playingColor : String) : String :=
  if playingColor = PieceColor.WHITE then PieceColor.BLACK
  else if playingColor = PieceColor.BLACK then PieceColor.WHITE
  else playingColor

/-- Models the JS object mutation piece.moved = true for the piece object
located at the given point (no-op when the square is empty, in which case
the mutation would only affect the move record, which the engine never
reads the flag from). -/
def setMovedTrue (g : Grid) (point : Point) : Grid :=
  match g.valueAt point with
  | some q => g.setValueAt point (some { q with moved := true })
  | none => g

/-- JS truthiness of the optional promotionCode string argument. -/
def truthy : Option String → Bool
  | none => false
  | some s => s ≠ ""

/-- The record returned by ChessEngine.move. -/
structure MoveOutcome where
  success : Bool
  move : Option Move
  engine : Engine

/-- ChessEngine.move: the public move application.  Looking up the move list
of an index that was never populated reads undefined and the subsequent
length access throws, modelled as Except.error. -/
def ChessEngine.move (e : Engine) (pointFrom pointTo : Point)
    (promotionCode : Option String) : Except String MoveOutcome :=
  if e.isGameOver then pure ⟨false, none, e⟩
  else
    match ChessEngine.getMovesAtPoint e pointFrom with
    | none => Except.error "TypeError: moves is undefined"
    | some moves =>
      match moves.find? (fun m => m.to' = pointTo) with
      | none => pure ⟨false, moves.getLast?, e⟩
      | some m => do
        let (g1, taken1) ← step e.grid e.takenPiece m
        let g2 := setMovedTrue g1 m.to'
        let g3 ←
          if m.moveType = MoveType.castle then
            match m with
            | Move.castleMove _ _ _ _ _ _ rookTo => pure (setMovedTrue g2 rookTo)
            | _ => Except.error "TypeError: rook is undefined"
          else if truthy promotionCode then
            if m.piece.kind ≠ PieceKind.pawn then
              Except.error "Trying to promote non-pawn piece."
            else
              match pieceFromCode (promotionCode.getD "") with
              | some promotionPiece =>
                pure (g2.setValueAt m.to' (some { promotionPiece with moved := true }))
              | none => Except.error "TypeError: promotionPiece is undefined"
          else pure g2
        let playingColor' := swapPlayingColor e.playingColor
        let st ← precomputeMoves e.width e.size g3 playingColor' (some m) taken1 e.moveArray
        pure ⟨true, some m,
          { e with grid := st.grid
                   moveArray := st.moveArray
                   playingColor := playingColor'
                   takenPiece := st.takenPiece
                   lastMove := some m
                   isGameOver := decide (st.validMoveCount = 0) }⟩

/-- The engine states reachable by constructing an engine, initialising it,
and applying any sequence of successful moves (re-initialisation allowed). -/
inductive Reachable : Engine → Prop where
  | init (width height : Int) (layout : List String) (e : Engine) :
      ChessEngine.init (mkEngine width height) layout = Except.ok e → Reachable e
  | reinit (e0 : Engine) (layout : List String) (e : Engine) :
      Reachable e0 → ChessEngine.init e0 layout = Except.ok e → Reachable e
  | move (e0 : Engine) (pointFrom pointTo : Point) (promotionCode : Option String)
      (out : MoveOutcome) :
      Reachable e0 → ChessEngine.move e0 pointFrom pointTo promotionCode = Except.ok out →
      out.success = true → Reachable out.engine

/-- The precomputed entry for a point, defaulting to the empty list; this is
the sequence the spec calls legalMovesAt. -/
def legalMovesAt (e : Engine) (point : Point) : List Move :=
  (ChessEngine.getMovesAtPoint e point).getD []

/-- The value of a successful Except computation, with a default for the
error case; used to name concrete engines produced by the public API. -/
def okD {ε α : Type} : Except ε α → α → α
  | .ok x, _ => x
  | .error _, d => d

/-- The threat test as the specification words it, for comparison with the
threatens test of the source: only enemy candidates of capturing type can
cause rejection, for castle candidates as well as for plain ones. -/
def specThreatens (kingPosition : Point) (m : Move) (enemyMove : Move) : Bool :=
  if enemyMove.moveType ≠ MoveType.capture then false
  else if kingPosition = enemyMove.to' then true
  else if m.moveType = MoveType.castle then
    m.kingPositions.any (fun kp => kp = enemyMove.to')
  else false

/-- A 5 by 5 board: unmoved white king at (3,0), unmoved black rook at
(0,0), everything else empty. -/
def gC : Grid :=
  ((Grid.mk 5 5 (fun _ => none)).setValueAt ⟨3, 0⟩
      (some ⟨"w", PieceKind.king, false⟩)).setValueAt ⟨0, 0⟩
    (some ⟨"b", PieceKind.rook, false⟩)

/-- A 5 by 5 board as it stands after stepping a white leftward castle:
white king now at (1,0), white rook now at (2,0), black rook at (3,3). -/
def g1C : Grid :=
  (((Grid.mk 5 5 (fun _ => none)).setValueAt ⟨1, 0⟩
        (some ⟨"w", PieceKind.king, false⟩)).setValueAt ⟨2, 0⟩
      (some ⟨"w", PieceKind.rook, false⟩)).setValueAt ⟨3, 3⟩
    (some ⟨"b", PieceKind.rook, false⟩)

/-- The castle move whose stepped position g1C is validated: king from
(3,0) to (1,0), rook from (0,0) to (2,0). -/
def mC : Move :=
  Move.castleMove ⟨"w", PieceKind.king, false⟩ MoveType.castle ⟨3, 0⟩ ⟨1, 0⟩
    ⟨"w", PieceKind.rook, false⟩ ⟨0, 0⟩ ⟨2, 0⟩

/-- A 3 by 2 board, wider than tall, which exposes the linear index
aliasing of the grid accessors. -/
def gA : Grid := ⟨3, 2, fun _ => none⟩

/-- A 3 by 3 engine holding a white king at (0,0) and a white rook at
(2,2), built through the public constructor and init. -/
def eng0 : Engine := mkEngine 3 3

def layout0 : List String := ["wk", "", "", "", "", "", "", "", "wr"]

def e1 : Engine := okD (ChessEngine.init eng0 layout0) eng0

/-- A 4 by 6 engine exercising en passant through the public interface:
a white pawn at (0,4) and a black pawn at (1,2), with kings in the
corners. -/
def engEP : Engine := mkEngine 4 6

def layoutEP : List String :=
  ["", "", "", "bk",
   "", "", "", "",
   "", "bp", "", "",
   "", "", "", "",
   "wp", "", "", "",
   "", "", "", "wk"]

def eEP0 : Engine := okD (ChessEngine.init engEP layoutEP) engEP

/-- The white pawn advances two squares, from (0,4) to (0,2). -/
def outEP1 : MoveOutcome :=
  okD (ChessEngine.move eEP0 ⟨0, 4⟩ ⟨0, 2⟩ none) ⟨false, none, eEP0⟩

def eEP1 : Engine := outEP1.engine

/-- The black pawn takes it en passant, from (1,2) to (0,3). -/
def outEP2 : MoveOutcome :=
  okD (ChessEngine.move eEP1 ⟨1, 2⟩ ⟨0, 3⟩ none) ⟨false, none, eEP1⟩

def eEP2 : Engine := outEP2.engine

section GridLemmas

variable {g : Grid} {p q a b : Point} {v : Option Piece} {i : Int}

theorem Grid.ext' {g g' : Grid} (hw : g.width = g'.width) (hh : g.height = g'.height)
    (hs : ∀ i, g.squares i = g'.squares i) : g = g' := by
  cases g with
  | mk w h s =>
    cases g' with
    | mk w' h' s' =>
      dsimp at hw hh hs
      subst hw
      subst hh
      exact congrArg (Grid.mk w h) (funext hs)

@[simp] theorem Grid.width_setValueAt : (g.setValueAt p v).width = g.width := rfl

@[simp] theorem Grid.height_setValueAt : (g.setValueAt p v).height = g.height := rfl

@[simp] theorem Grid.idx_setValueAt : (g.setValueAt p v).idx q = g.idx q := rfl

@[simp] theorem Grid.squares_setValueAt :
    (g.setValueAt p v).squares i = if i = g.idx p then v else g.squares i := rfl

@[simp] theorem Grid.isInside_setValueAt : (g.setValueAt p v).isInside q = g.isInside q := rfl

@[simp] theorem Grid.width_moveValue : (g.moveValue a b).width = g.width := by
  unfold Grid.moveValue
  split <;> rfl

@[simp] theorem Grid.height_moveValue : (g.moveValue a b).height = g.height := by
  unfold Grid.moveValue
  split <;> rfl

@[simp] theorem Grid.idx_moveValue : (g.moveValue a b).idx q = g.idx q := by
  unfold Grid.moveValue
  split <;> rfl

@[simp] theorem Grid.isInside_moveValue : (g.moveValue a b).isInside q = g.isInside q := by
  unfold Grid.moveValue
  split <;> rfl

theorem Grid.squares_moveValue :
    (g.moveValue a b).squares i =
      if a = b then g.squares i
      else if i = g.idx a then none
      else if i = g.idx b then g.squares (g.idx a)
      else g.squares i := by
  unfold Grid.moveValue
  split
  · rfl
  · simp only [Grid.squares_setValueAt, Grid.idx_setValueAt, Grid.valueAt]

@[simp] theorem Grid.width_setMovedTrue : (setMovedTrue g p).width = g.width := by
  unfold setMovedTrue
  split <;> rfl

@[simp] theorem Grid.height_setMovedTrue : (setMovedTrue g p).height = g.height := by
  unfold setMovedTrue
  split <;> rfl

theorem Grid.squares_setMovedTrue_ne (h : i ≠ g.idx p) :
    (setMovedTrue g p).squares i = g.squares i := by
  unfold setMovedTrue
  split
  · simp [Grid.squares_setValueAt, h]
  · rfl

/-- Membership in the scan order is exactly being inside the grid. -/
theorem mem_eachPoints : p ∈ g.eachPoints ↔ g.isInside p = true := by
  unfold Grid.eachPoints
  rw [List.mem_flatMap]
  constructor
  · rintro ⟨x, hx, hp⟩
    rw [List.mem_map] at hp
    obtain ⟨y, hy, rfl⟩ := hp
    rw [List.mem_range] at hx hy
    simp only [Grid.isInside, Bool.and_eq_true, decide_eq_true_eq]
    refine ⟨⟨⟨?_, ?_⟩, ?_⟩, ?_⟩ <;> omega
  · intro h
    simp only [Grid.isInside, Bool.and_eq_true, decide_eq_true_eq] at h
    cases p with
    | mk px py =>
      dsimp at h
      refine ⟨px.toNat, ?_, ?_⟩
      · rw [List.mem_range]
        omega
      · rw [List.mem_map]
        refine ⟨py.toNat, by rw [List.mem_range]; omega, ?_⟩
        simp only [Point.mk.injEq]
        constructor <;> omega

/-- The scan order visits no square twice. -/
theorem nodup_eachPoints : g.eachPoints.Nodup := by
  unfold Grid.eachPoints
  rw [List.nodup_flatMap]
  constructor
  · intro x _
    refine List.Nodup.map ?_ (List.nodup_range g.height)
    intro y y' h
    simpa using congrArg Point.y h
  · refine List.Pairwise.imp ?_ (List.nodup_range g.width)
    intro x x' hne
    simp only [Function.onFun]
    intro pt h1 h2
    rw [List.mem_map] at h1 h2
    obtain ⟨y, _, rfl⟩ := h1
    obtain ⟨y', _, h⟩ := h2
    have hx := congrArg Point.x h
    simp only at hx
    exact hne (by omega)

/-- The move-array slot index x + y * width is injective on points inside
the grid, provided slots are computed with at least the grid width. -/
theorem slot_injective {w : Nat} (hw : (g.width : Int) ≤ (w : Int))
    (hp : g.isInside p = true) (hq : g.isInside q = true)
    (h : p.x + p.y * (w : Int) = q.x + q.y * (w : Int)) : p = q := by
  cases p with
  | mk px py =>
    cases q with
    | mk qx qy =>
      simp only [Grid.isInside, Bool.and_eq_true, decide_eq_true_eq] at hp hq
      dsimp at hp hq h
      obtain ⟨⟨⟨hpx0, hpxw⟩, hpy0⟩, hpyh⟩ := hp
      obtain ⟨⟨⟨hqx0, hqxw⟩, hqy0⟩, hqyh⟩ := hq
      have hw0 : (0 : Int) ≤ (w : Int) := by positivity
      have hd : px - qx = (qy - py) * (w : Int) := by linear_combination h
      have hyy : py = qy := by
        rcases lt_trichotomy (qy - py) 0 with hlt | heq | hgt
        · have h1 : qy - py ≤ -1 := by omega
          have h2 : (qy - py) * (w : Int) ≤ (-1) * (w : Int) :=
            mul_le_mul_of_nonneg_right h1 hw0
          linarith
        · omega
        · have h1 : 1 ≤ qy - py := by omega
          have h2 : 1 * (w : Int) ≤ (qy - py) * (w : Int) :=
            mul_le_mul_of_nonneg_right h1 hw0
          linarith
      have hxx : px = qx := by
        rw [hyy] at h
        exact add_right_cancel h
      simp only [Point.mk.injEq]
      exact ⟨hxx, hyy⟩

end GridLemmas

section GenerationFacts

variable {g : Grid} {p pc : Piece} {c d pos : Point} {m : Move} {lm : Option Move}

@[simp] theorem Point.add_def (a b : Point) : a.add b = ⟨a.x + b.x, a.y + b.y⟩ := rfl

theorem pawnDirection_x (color : String) : (pawnDirection color).x = 0 := by
  unfold pawnDirection
  split <;> rfl

theorem pawnDirection_y (color : String) :
    (pawnDirection color).y = -1 ∨ (pawnDirection color).y = 1 := by
  unfold pawnDirection
  split
  · exact Or.inl rfl
  · exact Or.inr rfl

/-- What the castling scan guarantees about any move it emits: the rook is
an unmoved rook (of any color) found on the scan ray at distance at least
three, and the two destination squares are empty. -/
def CastleFacts (g : Grid) (pc : Piece) (c : Point) (m : Move) : Prop :=
  ∃ (rook : Piece) (s k : Int), (s = -1 ∨ s = 1) ∧ 3 ≤ k ∧
    m = Move.castleMove pc MoveType.castle c ⟨c.x + 2*s, c.y⟩ rook ⟨c.x + k*s, c.y⟩
      ⟨c.x + s, c.y⟩ ∧
    g.valueAt ⟨c.x + 2*s, c.y⟩ = none ∧
    g.valueAt ⟨c.x + s, c.y⟩ = none ∧
    g.valueAt ⟨c.x + k*s, c.y⟩ = some rook ∧
    rook.kind = PieceKind.rook ∧ rook.moved = false ∧
    g.isInside ⟨c.x + k*s, c.y⟩ = true

/-- What the en passant branch guarantees about any move it emits. -/
def EnPassantFacts (g : Grid) (pc : Piece) (c : Point) (lm : Option Move) (m : Move) : Prop :=
  ∃ (s : Int) (lmv : Move), (s = -1 ∨ s = 1) ∧ lm = some lmv ∧
    lmv.piece.kind = PieceKind.pawn ∧ lmv.piece.color ≠ pc.color ∧
    m = Move.enPassantMove pc MoveType.enPassant c
      ⟨c.x + s, c.y + (pawnDirection pc.color).y⟩ ⟨c.x + s, c.y⟩ ∧
    lmv.to' = ⟨c.x + s, c.y⟩ ∧
    lmv.from' = ⟨c.x + s, c.y + 2*(pawnDirection pc.color).y⟩ ∧
    g.isInside ⟨c.x + s, c.y⟩ = true

/-- The shape every generated candidate move has: one of the four kinds,
with the occupancy facts its generation checked. -/
def GenFacts (g : Grid) (pc : Piece) (c : Point) (lm : Option Move) (m : Move) : Prop :=
  (∃ t, m = Move.basic pc MoveType.move c t ∧ g.valueAt t = none ∧ g.isInside t = true) ∨
  (∃ t q, m = Move.basic pc MoveType.capture c t ∧ g.valueAt t = some q ∧
    q.color ≠ pc.color ∧ g.isInside t = true) ∨
  CastleFacts g pc c m ∨
  EnPassantFacts g pc c lm m

theorem slide_facts :
    ∀ (fuel : Nat) (pos : Point), m ∈ slide p c g d fuel pos →
    (∃ t, m = Move.basic p MoveType.move c t ∧ g.valueAt t = none ∧ g.isInside t = true) ∨
    (∃ t q, m = Move.basic p MoveType.capture c t ∧ g.valueAt t = some q ∧
      q.color ≠ p.color ∧ g.isInside t = true) := by
  intro fuel
  induction fuel with
  | zero => intro pos h; simp [slide] at h
  | succ n ih =>
    intro pos h
    rw [slide] at h
    split at h
    · rename_i hin
      split at h
      · rename_i q hval
        split at h
        · rename_i hcol
          rw [List.mem_singleton] at h
          exact Or.inr ⟨pos, q, h, hval, hcol, hin⟩
        · simp at h
      · rename_i hval
        rw [List.mem_cons] at h
        cases h with
        | inl h => exact Or.inl ⟨pos, h, hval, hin⟩
        | inr h => exact ih _ h
    · simp at h

theorem pawnForward_facts :
    ∀ (fuel : Nat) (pos : Point), m ∈ pawnForward p c g fuel pos →
    ∃ t, m = Move.basic p MoveType.move c t ∧ g.valueAt t = none ∧ g.isInside t = true := by
  intro fuel
  induction fuel with
  | zero => intro pos h; simp [pawnForward] at h
  | succ n ih =>
    intro pos h
    rw [pawnForward] at h
    split at h
    · rename_i hin
      split at h
      · simp at h
      · rename_i hval
        rw [List.mem_cons] at h
        cases h with
        | inl h => exact ⟨pos, h, hval, hin⟩
        | inr h => exact ih _ h
    · simp at h

theorem castleScan_facts {m : Move} (hs : d.x = -1 ∨ d.x = 1) (hdy : d.y = 0)
    (hoff : pos = ⟨2 * d.x, 0⟩) :
    ∀ (fuel : Nat) (j : Int), 1 ≤ j →
    m ∈ castleScan p c g d pos fuel ⟨c.x + j * d.x, c.y⟩ →
    CastleFacts g p c m := by
  intro fuel
  induction fuel with
  | zero => intro j _ h; simp [castleScan] at h
  | succ n ih =>
    intro j hj h
    have heq : (Point.mk (c.x + j * d.x) c.y).add d = ⟨c.x + (j + 1) * d.x, c.y⟩ := by
      simp only [Point.add_def, Point.mk.injEq]
      constructor
      · ring_nf
      · omega
    rw [castleScan] at h
    split at h
    · rename_i hin
      split at h
      · rename_i q hval
        split at h
        · simp at h
        · rename_i hk
          push_neg at hk
          split at h
          · rename_i hmv
            dsimp only at h
            split at h
            · simp at h
            · rename_i hkt
              split at h
              · simp at h
              · rename_i hrt
                rw [List.mem_singleton] at h
                have hktn : g.valueAt (c.add pos) = none := by
                  cases hv : g.valueAt (c.add pos) with
                  | none => rfl
                  | some _ => rw [hv] at hkt; simp at hkt
                have hrtn : g.valueAt (c.add d) = none := by
                  cases hv : g.valueAt (c.add d) with
                  | none => rfl
                  | some _ => rw [hv] at hrt; simp at hrt
                have hcaddpos : c.add pos = ⟨c.x + 2 * d.x, c.y⟩ := by
                  rw [hoff]
                  simp only [Point.add_def, Point.mk.injEq]
                  constructor
                  · ring_nf
                  · omega
                have hcaddd : c.add d = ⟨c.x + d.x, c.y⟩ := by
                  simp only [Point.add_def, Point.mk.injEq]
                  constructor
                  · ring_nf
                  · omega
                rw [hcaddpos] at hktn
                rw [hcaddd] at hrtn
                -- the found rook cannot sit on either empty destination square
                have hj2 : j ≠ 2 := by
                  intro hj2
                  rw [hj2] at hval
                  rw [hval] at hktn
                  exact Option.noConfusion hktn
                have hj1 : j ≠ 1 := by
                  intro hj1
                  rw [hj1, one_mul] at hval
                  rw [hval] at hrtn
                  exact Option.noConfusion hrtn
                refine ⟨q, d.x, j, hs, by omega, ?_, ?_, ?_, hval, hk, hmv, hin⟩
                · rw [h, hcaddpos, hcaddd]
                · exact hktn
                · exact hrtn
          · rw [heq] at h
            exact ih (j + 1) (by omega) h
      · rw [heq] at h
        exact ih (j + 1) (by omega) h
    · simp at h

theorem kingLeft_spec (color : String) :
    ((kingLeft color).x = -1 ∨ (kingLeft color).x = 1) ∧ (kingLeft color).y = 0 ∧
    castleLeftOffset color = ⟨2 * (kingLeft color).x, 0⟩ := by
  unfold kingLeft castleLeftOffset
  by_cases h : color = PieceColor.WHITE
  · rw [if_pos h, if_pos h]
    exact ⟨Or.inl rfl, rfl, rfl⟩
  · rw [if_neg h, if_neg h]
    exact ⟨Or.inr rfl, rfl, rfl⟩

theorem kingRight_spec (color : String) :
    ((kingRight color).x = -1 ∨ (kingRight color).x = 1) ∧ (kingRight color).y = 0 ∧
    castleRightOffset color = ⟨2 * (kingRight color).x, 0⟩ := by
  unfold kingRight castleRightOffset
  by_cases h : color = PieceColor.WHITE
  · rw [if_pos h, if_pos h]
    exact ⟨Or.inr rfl, rfl, rfl⟩
  · rw [if_neg h, if_neg h]
    exact ⟨Or.inl rfl, rfl, rfl⟩

theorem offsetMoves_facts {dirs : List Point}
    (hm : m ∈ dirs.filterMap (fun direction =>
      let newPos := c.add direction
      if g.isInside newPos then
        match g.valueAt newPos with
        | some existingPiece =>
          if existingPiece.color ≠ p.color then
            some (Move.basic p MoveType.capture c newPos)
          else none
        | none => some (Move.basic p MoveType.move c newPos)
      else none)) :
    (∃ t, m = Move.basic p MoveType.move c t ∧ g.valueAt t = none ∧ g.isInside t = true) ∨
    (∃ t q, m = Move.basic p MoveType.capture c t ∧ g.valueAt t = some q ∧
      q.color ≠ p.color ∧ g.isInside t = true) := by
  rw [List.mem_filterMap] at hm
  obtain ⟨dir, _, hf⟩ := hm
  dsimp only at hf
  split at hf
  · rename_i hin
    split at hf
    · rename_i q hval
      split at hf
      · rename_i hcol
        injection hf with hf
        exact Or.inr ⟨c.add dir, q, hf.symm, hval, hcol, hin⟩
      · exact absurd hf (by simp)
    · rename_i hval
      injection hf with hf
      exact Or.inl ⟨c.add dir, hf.symm, hval, hin⟩
  · exact absurd hf (by simp)

theorem pawnCaptures_facts {dirs : List Point}
    (hm : m ∈ dirs.filterMap (fun direction =>
      let newPos := c.add direction
      if g.isInside newPos then
        match g.valueAt newPos with
        | some existingPiece =>
          if existingPiece.color ≠ p.color then
            some (Move.basic p MoveType.capture c newPos)
          else none
        | none => none
      else none)) :
    ∃ t q, m = Move.basic p MoveType.capture c t ∧ g.valueAt t = some q ∧
      q.color ≠ p.color ∧ g.isInside t = true := by
  rw [List.mem_filterMap] at hm
  obtain ⟨dir, _, hf⟩ := hm
  dsimp only at hf
  split at hf
  · rename_i hin
    split at hf
    · rename_i q hval
      split at hf
      · rename_i hcol
        injection hf with hf
        exact ⟨c.add dir, q, hf.symm, hval, hcol, hin⟩
      · exact absurd hf (by simp)
    · exact absurd hf (by simp)
  · exact absurd hf (by simp)

theorem pawnMove_facts (hm : m ∈ pawnMove pc c g lm) : GenFacts g pc c lm m := by
  unfold pawnMove at hm
  dsimp only at hm
  rw [List.append_assoc, List.mem_append, List.mem_append] at hm
  rcases hm with hm | hm | hm
  · obtain ⟨t, rfl, hv, hin⟩ := pawnForward_facts _ _ hm
    exact Or.inl ⟨t, rfl, hv, hin⟩
  · obtain ⟨t, q, rfl, hv, hcol, hin⟩ := pawnCaptures_facts hm
    exact Or.inr (Or.inl ⟨t, q, rfl, hv, hcol, hin⟩)
  · split at hm
    · rename_i lmv
      split at hm
      · rename_i hguard
        rw [List.mem_filterMap] at hm
        obtain ⟨side, hside, hf⟩ := hm
        have hside2 : side = (⟨-1, 0⟩ : Point) ∨ side = (⟨1, 0⟩ : Point) := by
          simpa [pawnSides] using hside
        have hsx : side.x = -1 ∨ side.x = 1 := by
          rcases hside2 with rfl | rfl
          · exact Or.inl rfl
          · exact Or.inr rfl
        have hsy : side.y = 0 := by
          rcases hside2 with rfl | rfl <;> rfl
        split at hf
        · rename_i hin
          split at hf
          · rename_i hcond
            injection hf with hf
            subst hf
            have hdx := pawnDirection_x pc.color
            have h1 : c.add side = ⟨c.x + side.x, c.y⟩ := by
              rw [Point.add_def, Point.mk.injEq]
              constructor
              · rfl
              · omega
            have h2 : (c.add side).add (pawnDirection pc.color) =
                ⟨c.x + side.x, c.y + (pawnDirection pc.color).y⟩ := by
              rw [Point.add_def, Point.add_def, Point.mk.injEq]
              constructor
              · dsimp only
                omega
              · dsimp only
                omega
            have h3 : ((c.add side).add (pawnDirection pc.color)).add (pawnDirection pc.color) =
                ⟨c.x + side.x, c.y + 2 * (pawnDirection pc.color).y⟩ := by
              rw [Point.add_def, Point.add_def, Point.add_def, Point.mk.injEq]
              constructor
              · dsimp only
                omega
              · dsimp only
                omega
            refine Or.inr (Or.inr (Or.inr ⟨side.x, lmv, hsx, rfl, hguard.1, hguard.2,
              ?_, ?_, ?_, ?_⟩))
            · rw [h2, h1]
            · rw [← h1]
              exact hcond.1.symm
            · rw [← h3]
              exact hcond.2.symm
            · rw [← h1]
              exact hin
          · exact absurd hf (by simp)
        · exact absurd hf (by simp)
      · simp at hm
    · simp at hm

theorem knightMove_facts (hm : m ∈ knightMove p c g) : GenFacts g p c lm m := by
  rw [knightMove] at hm
  rcases offsetMoves_facts hm with h | h
  · exact Or.inl h
  · exact Or.inr (Or.inl h)

theorem sliderMove_facts {dirs : List Point}
    (hm : m ∈ dirs.flatMap (fun direction =>
      slide p c g direction (g.width + g.height) (c.add direction))) :
    GenFacts g p c lm m := by
  rw [List.mem_flatMap] at hm
  obtain ⟨dir, _, hm⟩ := hm
  rcases slide_facts _ _ hm with h | h
  · exact Or.inl h
  · exact Or.inr (Or.inl h)

theorem kingMove_facts (hm : m ∈ kingMove p c g) : GenFacts g p c lm m := by
  rw [kingMove] at hm
  dsimp only at hm
  rw [List.mem_append] at hm
  rcases hm with hm | hm
  · rcases offsetMoves_facts hm with h | h
    · exact Or.inl h
    · exact Or.inr (Or.inl h)
  · split at hm
    · rw [List.mem_append] at hm
      rcases hm with hm | hm
      · obtain ⟨hlx, hly, hloff⟩ := kingLeft_spec p.color
        rw [hloff] at hm
        have h1 : c.add (kingLeft p.color) = ⟨c.x + 1 * (kingLeft p.color).x, c.y⟩ := by
          simp only [Point.add_def, Point.mk.injEq]
          omega
        rw [h1] at hm
        exact Or.inr (Or.inr (Or.inl (castleScan_facts hlx hly rfl _ 1 (by omega) hm)))
      · obtain ⟨hrx, hry, hroff⟩ := kingRight_spec p.color
        rw [hroff] at hm
        have h1 : c.add (kingRight p.color) = ⟨c.x + 1 * (kingRight p.color).x, c.y⟩ := by
          simp only [Point.add_def, Point.mk.injEq]
          omega
        rw [h1] at hm
        exact Or.inr (Or.inr (Or.inl (castleScan_facts hrx hry rfl _ 1 (by omega) hm)))
    · simp at hm

/-- Every candidate move a piece generates has the shape and occupancy
facts recorded by GenFacts. -/
theorem pieceMove_facts (hm : m ∈ pieceMove pc c g lm) : GenFacts g pc c lm m := by
  rw [pieceMove] at hm
  rcases hk : pc.kind with _ | _ | _ | _ | _ | _ <;> rw [hk] at hm
  · exact pawnMove_facts hm
  · exact sliderMove_facts hm
  · exact knightMove_facts hm
  · exact sliderMove_facts hm
  · exact kingMove_facts hm
  · exact sliderMove_facts hm

theorem GenFacts_piece_from (hf : GenFacts g pc c lm m) :
    m.piece = pc ∧ m.from' = c := by
  rcases hf with ⟨t, rfl, _⟩ | ⟨t, q, rfl, _⟩ |
    ⟨rook, s, k, _, _, rfl, _⟩ | ⟨s, lmv, _, _, _, _, rfl, _⟩ <;> exact ⟨rfl, rfl⟩

theorem GenFacts_moveType (hf : GenFacts g pc c lm m) :
    (m.moveType = MoveType.move ∧
      (∃ t, m = Move.basic pc MoveType.move c t ∧ g.valueAt t = none ∧ g.isInside t = true)) ∨
    (m.moveType = MoveType.capture ∧
      (∃ t q, m = Move.basic pc MoveType.capture c t ∧ g.valueAt t = some q ∧
        q.color ≠ pc.color ∧ g.isInside t = true)) ∨
    (m.moveType = MoveType.castle ∧ CastleFacts g pc c m) ∨
    (m.moveType = MoveType.enPassant ∧ EnPassantFacts g pc c lm m) := by
  rcases hf with h | h | h | h
  · obtain ⟨t, heq, hv, hin⟩ := h
    exact Or.inl ⟨by rw [heq]; rfl, ⟨t, heq, hv, hin⟩⟩
  · obtain ⟨t, q, heq, hv, hcol, hin⟩ := h
    exact Or.inr (Or.inl ⟨by rw [heq]; rfl, ⟨t, q, heq, hv, hcol, hin⟩⟩)
  · have heq := h
    obtain ⟨rook, s, k, _, _, heq2, _⟩ := heq
    refine Or.inr (Or.inr (Or.inl ⟨?_, h⟩))
    rw [heq2]
    rfl
  · have heq := h
    obtain ⟨s, lmv, _, _, _, _, heq2, _⟩ := heq
    refine Or.inr (Or.inr (Or.inr ⟨?_, h⟩))
    rw [heq2]
    rfl

end GenerationFacts

section StepUndo

variable {g : Grid} {t : Option Piece} {pc rook : Piece} {c t0 rf rt ca : Point}
variable {lm : Option Move} {m : Move}

theorem step_basic_capture :
    step g t (Move.basic pc MoveType.capture c t0) =
      Except.ok (g.moveValue c t0, g.valueAt t0) := rfl

theorem step_basic_move (h : g.valueAt t0 = none) :
    step g t (Move.basic pc MoveType.move c t0) = Except.ok (g.moveValue c t0, t) := by
  show (if (g.valueAt t0).isSome = true then _ else _) = _
  rw [h]
  rfl

theorem step_castleMove :
    step g t (Move.castleMove pc MoveType.castle c t0 rook rf rt) =
      Except.ok ((g.moveValue rf rt).moveValue c t0, t) := rfl

theorem step_enPassantMove :
    step g t (Move.enPassantMove pc MoveType.enPassant c t0 ca) =
      Except.ok (g.moveValue c t0, g.valueAt ca) := rfl

theorem undo_basic_move :
    undo g t (Move.basic pc MoveType.move c t0) = Except.ok (g.moveValue t0 c) := rfl

theorem undo_basic_capture :
    undo g t (Move.basic pc MoveType.capture c t0) =
      Except.ok ((g.moveValue t0 c).setValueAt t0 t) := rfl

theorem undo_castleMove :
    undo g t (Move.castleMove pc MoveType.castle c t0 rook rf rt) =
      Except.ok ((g.moveValue t0 c).moveValue rt rf) := rfl

theorem undo_enPassantMove :
    undo g t (Move.enPassantMove pc MoveType.enPassant c t0 ca) =
      Except.ok ((g.moveValue t0 c).setValueAt ca t) := rfl

/-- The round trip of the internal step/undo pair: for any move the
generator produces (with the en passant destination square empty, as it is
in every reachable state), stepping and then undoing restores the grid
exactly. -/
theorem step_undo_restore
    (hc : g.isInside c = true) (hpc : g.valueAt c = some pc)
    (hf : GenFacts g pc c lm m)
    (hEP : m.moveType = MoveType.enPassant →
      g.valueAt m.to' = none ∧ g.isInside m.to' = true) :
    ∃ g1 t1, step g t m = Except.ok (g1, t1) ∧ undo g1 t1 m = Except.ok g := by
  rcases hf with ⟨T, rfl, hv, hin⟩ | ⟨T, q, rfl, hv, hcol, hin⟩ | hcf | hef
  · -- plain move
    have hidx : g.idx c ≠ g.idx T := by
      intro h
      unfold Grid.valueAt at hpc hv
      rw [h, hv] at hpc
      exact Option.noConfusion hpc
    have hne : c ≠ T := fun h => hidx (congrArg g.idx h)
    refine ⟨g.moveValue c T, t, step_basic_move hv, ?_⟩
    rw [undo_basic_move]
    refine congrArg Except.ok (Grid.ext' (by simp) (by simp) ?_)
    intro i
    unfold Grid.valueAt at hv
    simp only [Grid.squares_moveValue, Grid.idx_moveValue]
    split_ifs <;> simp_all
  · -- capture
    have hidx : g.idx c ≠ g.idx T := by
      intro h
      unfold Grid.valueAt at hpc hv
      rw [h, hv] at hpc
      injection hpc with hq
      rw [hq] at hcol
      exact hcol rfl
    have hne : c ≠ T := fun h => hidx (congrArg g.idx h)
    refine ⟨g.moveValue c T, g.valueAt T, step_basic_capture, ?_⟩
    rw [undo_basic_capture]
    refine congrArg Except.ok (Grid.ext' (by simp) (by simp) ?_)
    intro i
    unfold Grid.valueAt at hv
    simp only [Grid.squares_setValueAt, Grid.squares_moveValue, Grid.idx_moveValue,
      Grid.idx_setValueAt]
    split_ifs <;> simp_all [Grid.valueAt]
  · -- castle
    obtain ⟨rook, s, k, hs, hk3, rfl, hvT, hvR, hvF, hkind, hmoved, hinF⟩ := hcf
    have hs0 : s ≠ 0 := by rcases hs with rfl | rfl <;> omega
    set T : Point := ⟨c.x + 2 * s, c.y⟩ with hT
    set R : Point := ⟨c.x + s, c.y⟩ with hR
    set F : Point := ⟨c.x + k * s, c.y⟩ with hF
    have hidxTc : g.idx T ≠ g.idx c := by
      unfold Grid.idx
      rw [hT]
      dsimp
      rcases hs with rfl | rfl <;> omega
    have hidxRc : g.idx R ≠ g.idx c := by
      unfold Grid.idx
      rw [hR]
      dsimp
      rcases hs with rfl | rfl <;> omega
    have hidxFc : g.idx F ≠ g.idx c := by
      unfold Grid.idx
      rw [hF]
      dsimp
      rcases hs with rfl | rfl <;> omega
    have hidxTR : g.idx T ≠ g.idx R := by
      unfold Grid.idx
      rw [hT, hR]
      dsimp
      rcases hs with rfl | rfl <;> omega
    have hidxTF : g.idx T ≠ g.idx F := by
      unfold Grid.idx
      rw [hT, hF]
      dsimp
      rcases hs with rfl | rfl <;> omega
    have hidxRF : g.idx R ≠ g.idx F := by
      unfold Grid.idx
      rw [hR, hF]
      dsimp
      rcases hs with rfl | rfl <;> omega
    have hneFR : F ≠ R := fun h => hidxRF (congrArg g.idx h).symm
    have hnecT : c ≠ T := fun h => hidxTc (congrArg g.idx h).symm
    refine ⟨(g.moveValue F R).moveValue c T, t, step_castleMove, ?_⟩
    rw [undo_castleMove]
    refine congrArg Except.ok (Grid.ext' (by simp) (by simp) ?_)
    intro i
    unfold Grid.valueAt at hvT hvR hvF
    clear hEP hpc hc hkind hmoved hinF hk3 hs0 hs
    simp only [Grid.squares_moveValue, Grid.idx_moveValue, if_neg hneFR,
      if_neg (Ne.symm hneFR), if_neg hnecT, if_neg (Ne.symm hnecT)]
    split_ifs <;> simp_all
  · -- en passant
    obtain ⟨s, lmv, hs, hlm, hlk, hlc, rfl, hlto, hlfrom, hinCA⟩ := hef
    obtain ⟨hvT, hinT⟩ := hEP rfl
    rw [Move.to'] at hvT hinT
    have hdy := pawnDirection_y pc.color
    set T : Point := ⟨c.x + s, c.y + (pawnDirection pc.color).y⟩ with hT
    set CA : Point := ⟨c.x + s, c.y⟩ with hCA
    have hbc : (0 ≤ c.y ∧ c.y < (g.height : Int)) := by
      simp only [Grid.isInside, Bool.and_eq_true, decide_eq_true_eq] at hc
      exact ⟨hc.1.2, hc.2⟩
    have hbT : (0 ≤ T.y ∧ T.y < (g.height : Int)) := by
      simp only [Grid.isInside, Bool.and_eq_true, decide_eq_true_eq] at hinT
      exact ⟨hinT.1.2, hinT.2⟩
    rw [hT] at hbT
    dsimp at hbT
    have hidxTc : g.idx T ≠ g.idx c := by
      unfold Grid.idx
      rw [hT]
      dsimp
      rcases hdy with h | h <;> rw [h] at hbT ⊢ <;> rcases hs with rfl | rfl <;>
        ring_nf <;> omega
    have hidxTCA : g.idx T ≠ g.idx CA := by
      unfold Grid.idx
      rw [hT, hCA]
      dsimp
      rcases hdy with h | h <;> rw [h] at hbT ⊢ <;> ring_nf <;> omega
    have hidxCAc : g.idx CA ≠ g.idx c := by
      unfold Grid.idx
      rw [hCA]
      dsimp
      rcases hs with rfl | rfl <;> omega
    have hnecT : c ≠ T := fun h => hidxTc (congrArg g.idx h).symm
    refine ⟨g.moveValue c T, g.valueAt CA, step_enPassantMove, ?_⟩
    rw [undo_enPassantMove]
    refine congrArg Except.ok (Grid.ext' (by simp) (by simp) ?_)
    intro i
    unfold Grid.valueAt at hvT
    clear hEP hpc hc hinCA hinT hbc hbT hlto hlfrom hlk hlc hlm hdy hs
    simp only [Grid.squares_setValueAt, Grid.squares_moveValue, Grid.idx_moveValue,
      Grid.idx_setValueAt, if_neg hnecT, if_neg (Ne.symm hnecT)]
    split_ifs <;> simp_all [Grid.valueAt]

end StepUndo

section EngineInvariants

variable {g g1 g3 : Grid} {t t1 : Option Piece} {pc : Piece} {c : Point}
variable {lm : Option Move} {m : Move} {playing : String}

/-- En passant safety of a position: every en passant candidate of the side
to move lands on an empty, in-bounds square.  This holds in every reachable
state and is what makes the step/undo pair a true round trip. -/
def EPOk (g : Grid) (playing : String) (lm : Option Move) : Prop :=
  ∀ c pc m, g.isInside c = true → g.valueAt c = some pc → pc.color = playing →
    m ∈ pieceMove pc c g lm → m.moveType = MoveType.enPassant →
    g.valueAt m.to' = none ∧ g.isInside m.to' = true

theorem EPOk_of_lastMove_none : EPOk g playing none := by
  intro c pc m hc hv hcol hm hmt
  rcases GenFacts_moveType (pieceMove_facts hm) with ⟨h, _⟩ | ⟨h, _⟩ | ⟨h, _⟩ | ⟨_, hef⟩
  · rw [h] at hmt
    cases hmt
  · rw [h] at hmt
    cases hmt
  · rw [h] at hmt
    cases hmt
  · obtain ⟨s, lmv, _, hlm, _⟩ := hef
    cases hlm

theorem CastleFacts_to_inside (hcf : CastleFacts g pc c m) (hc : g.isInside c = true) :
    g.isInside m.to' = true := by
  obtain ⟨rook, s, k, hs, hk3, rfl, _, _, _, _, _, hinF⟩ := hcf
  rw [Move.to']
  simp only [Grid.isInside, Bool.and_eq_true, decide_eq_true_eq] at hc hinF ⊢
  rcases hs with rfl | rfl <;>
    refine ⟨⟨⟨by omega, by omega⟩, by omega⟩, by omega⟩

/-- Every candidate move generated in an en-passant-safe position lands
inside the board (the source checks this and would throw otherwise). -/
theorem generated_inside (hEP : EPOk g playing lm) (hc : g.isInside c = true)
    (hv : g.valueAt c = some pc) (hcol : pc.color = playing)
    (hm : m ∈ pieceMove pc c g lm) : g.isInside m.to' = true := by
  rcases pieceMove_facts hm with ⟨tt, rfl, _, hin⟩ | ⟨tt, q, rfl, _, _, hin⟩ | hcf | hef
  · exact hin
  · exact hin
  · exact CastleFacts_to_inside hcf hc
  · have hmt : m.moveType = MoveType.enPassant := by
      obtain ⟨s, lmv, _, _, _, _, heq, _⟩ := hef
      rw [heq]
      rfl
    exact (hEP c pc m hc hv hcol hm hmt).2

/-- Provenance of a stored legal move: some piece of the side to move sits
on the square and generated it. -/
def goodGen (g : Grid) (playing : String) (lm : Option Move) (c : Point) (m : Move) : Prop :=
  ∃ pc, g.valueAt c = some pc ∧ pc.color = playing ∧ m ∈ pieceMove pc c g lm

/-- The slots the step function may write. -/
def stepTouched (g : Grid) (m : Move) : List Int :=
  match m with
  | Move.castleMove _ _ f tt _ rf rt => [g.idx f, g.idx tt, g.idx rf, g.idx rt]
  | mm => [g.idx mm.from', g.idx mm.to']

theorem squares_moveValue_notMem {a b : Point} {i : Int}
    (ha : i ≠ g.idx a) (hb : i ≠ g.idx b) :
    (g.moveValue a b).squares i = g.squares i := by
  rw [Grid.squares_moveValue]
  split_ifs <;> simp_all

theorem step_mt_move (hmt : m.moveType = MoveType.move) :
    step g t m = if (g.valueAt m.to').isSome = true then
        Except.error "Cannot step moveType.MOVE to place with existing piece"
      else Except.ok (g.moveValue m.from' m.to', t) := by
  cases m with
  | basic p mt f tt =>
    rw [Move.moveType] at hmt
    subst hmt
    rfl
  | castleMove p mt f tt rook rf rt =>
    rw [Move.moveType] at hmt
    subst hmt
    rfl
  | enPassantMove p mt f tt ca =>
    rw [Move.moveType] at hmt
    subst hmt
    rfl

theorem step_mt_capture (hmt : m.moveType = MoveType.capture) :
    step g t m = Except.ok (g.moveValue m.from' m.to', g.valueAt m.to') := by
  cases m with
  | basic p mt f tt =>
    rw [Move.moveType] at hmt
    subst hmt
    rfl
  | castleMove p mt f tt rook rf rt =>
    rw [Move.moveType] at hmt
    subst hmt
    rfl
  | enPassantMove p mt f tt ca =>
    rw [Move.moveType] at hmt
    subst hmt
    rfl

/-- Whatever step does, it only writes the touched slots and preserves the
grid dimensions. -/
theorem step_frame (hstep : step g t m = Except.ok (g1, t1)) :
    g1.width = g.width ∧ g1.height = g.height ∧
    ∀ i, i ∉ stepTouched g m → g1.squares i = g.squares i := by
  have hmv2 : ∀ (a b : Point), g.moveValue a b = g1 →
      g1.width = g.width ∧ g1.height = g.height ∧
      ∀ i, i ≠ g.idx a → i ≠ g.idx b → g1.squares i = g.squares i := by
    intro a b hg
    subst hg
    exact ⟨by simp, by simp, fun i h1 h2 => squares_moveValue_notMem h1 h2⟩
  have hbasic : g.moveValue m.from' m.to' = g1 →
      g1.width = g.width ∧ g1.height = g.height ∧
      ∀ i, i ∉ stepTouched g m → g1.squares i = g.squares i := by
    intro hg
    obtain ⟨d1, d2, hf⟩ := hmv2 _ _ hg
    refine ⟨d1, d2, fun i hi => ?_⟩
    cases m with
    | basic p mt f tt =>
      simp only [stepTouched, List.mem_cons, List.not_mem_nil, or_false, not_or] at hi
      exact hf i hi.1 hi.2
    | castleMove p mt f tt rook rf rt =>
      simp only [stepTouched, List.mem_cons, List.not_mem_nil, or_false, not_or] at hi
      exact hf i hi.1 hi.2.1
    | enPassantMove p mt f tt ca =>
      simp only [stepTouched, List.mem_cons, List.not_mem_nil, or_false, not_or] at hi
      exact hf i hi.1 hi.2
  cases hmt : m.moveType with
  | move =>
    rw [step_mt_move hmt] at hstep
    split at hstep
    · cases hstep
    · injection hstep with hstep
      injection hstep with hg ht
      exact hbasic hg
  | capture =>
    rw [step_mt_capture hmt] at hstep
    injection hstep with hstep
    injection hstep with hg ht
    exact hbasic hg
  | castle =>
    cases m with
    | basic p mt f tt =>
      rw [Move.moveType] at hmt
      subst hmt
      cases hstep
    | enPassantMove p mt f tt ca =>
      rw [Move.moveType] at hmt
      subst hmt
      cases hstep
    | castleMove p mt f tt rook rf rt =>
      rw [Move.moveType] at hmt
      subst hmt
      rw [step_castleMove] at hstep
      injection hstep with hstep
      injection hstep with hg ht
      subst hg
      refine ⟨by simp, by simp, fun i hi => ?_⟩
      simp only [stepTouched, List.mem_cons, List.not_mem_nil, or_false, not_or] at hi
      rw [squares_moveValue_notMem (by simpa using hi.1) (by simpa using hi.2.1)]
      exact squares_moveValue_notMem hi.2.2.1 hi.2.2.2
  | enPassant =>
    cases m with
    | basic p mt f tt =>
      rw [Move.moveType] at hmt
      subst hmt
      cases hstep
    | castleMove p mt f tt rook rf rt =>
      rw [Move.moveType] at hmt
      subst hmt
      cases hstep
    | enPassantMove p mt f tt ca =>
      rw [Move.moveType] at hmt
      subst hmt
      rw [step_enPassantMove] at hstep
      injection hstep with hstep
      injection hstep with hg ht
      obtain ⟨d1, d2, hf⟩ := hmv2 _ _ hg
      refine ⟨d1, d2, fun i hi => ?_⟩
      simp only [stepTouched, List.mem_cons, List.not_mem_nil, or_false, not_or] at hi
      exact hf i hi.1 hi.2

/-- One pass of the inner validation loop leaves the grid as it found it
and only appends generated moves to the valid list. -/
theorem precomputeInner_fold {piece : Piece}
    (hc : g.isInside c = true) (hv : g.valueAt c = some piece)
    (hEP : EPOk g playing lm) (hcol : piece.color = playing) :
    ∀ (moves : List Move), (∀ m ∈ moves, m ∈ pieceMove piece c g lm) →
    ∀ (t0 : Option Piece) (vm0 : List Move),
    ∃ t2 vm2, moves.foldlM (precomputeInner playing lm piece) (g, t0, vm0) =
        Except.ok (g, t2, vm2) ∧
      ∀ m ∈ vm2, m ∈ vm0 ∨ m ∈ moves := by
  intro moves
  induction moves with
  | nil =>
    intro _ t0 vm0
    exact ⟨t0, vm0, rfl, fun m hm => Or.inl hm⟩
  | cons m rest ih =>
    intro hmem t0 vm0
    have hm : m ∈ pieceMove piece c g lm := hmem m (List.mem_cons_self m rest)
    have hgen := pieceMove_facts hm
    have hin : g.isInside m.to' = true := generated_inside hEP hc hv hcol hm
    obtain ⟨g1, t1, hstep, hundo⟩ := step_undo_restore hc hv hgen
      (fun hmt => hEP c piece m hc hv hcol hm hmt)
    have hone : precomputeInner playing lm piece (g, t0, vm0) m =
        Except.ok (g, t1,
          if piece.color = playing ∧ validatePosition g1 playing lm m then vm0 ++ [m]
          else vm0) := by
      unfold precomputeInner
      rw [hin]
      simp only [Bool.true_eq_false, if_false]
      rw [hstep]
      show undo g1 t1 m >>= _ = _
      rw [hundo]
      rfl
    obtain ⟨t2, vm2, hfold, hsub⟩ := ih (fun m' hm' => hmem m' (List.mem_cons_of_mem _ hm')) t1
      (if piece.color = playing ∧ validatePosition g1 playing lm m then vm0 ++ [m] else vm0)
    refine ⟨t2, vm2, ?_, ?_⟩
    · rw [List.foldlM_cons, hone]
      exact hfold
    · intro m' hm'
      rcases hsub m' hm' with h | h
      · by_cases hcond : piece.color = playing ∧ validatePosition g1 playing lm m
        · rw [if_pos hcond] at h
          rcases List.mem_append.mp h with h | h
          · exact Or.inl h
          · rw [List.mem_singleton] at h
            subst h
            exact Or.inr (List.mem_cons_self m' rest)
        · rw [if_neg hcond] at h
          exact Or.inl h
      · exact Or.inr (List.mem_cons_of_mem _ h)

theorem slot_range {width : Nat} {p : Point} (hp : g.isInside p = true)
    (hw : g.width = width) :
    0 ≤ p.x + p.y * (width : Int) ∧
    p.x + p.y * (width : Int) < (width : Int) * (g.height : Int) := by
  simp only [Grid.isInside, Bool.and_eq_true, decide_eq_true_eq] at hp
  obtain ⟨⟨⟨h1, h2⟩, h3⟩, h4⟩ := hp
  rw [hw] at h2
  have hw0 : (0 : Int) ≤ (width : Int) := by positivity
  constructor
  · have h5 : 0 ≤ p.y * (width : Int) := mul_nonneg h3 hw0
    omega
  · have h5 : p.y * (width : Int) ≤ ((g.height : Int) - 1) * (width : Int) :=
      mul_le_mul_of_nonneg_right (by omega) hw0
    nlinarith

theorem slot_surjective {width : Nat} (hw : g.width = width) {i : Int}
    (h0 : 0 ≤ i) (h1 : i < (width : Int) * (g.height : Int)) :
    ∃ p : Point, g.isInside p = true ∧ p.x + p.y * (width : Int) = i := by
  have hwpos : 0 < (width : Int) := by
    rcases Nat.eq_zero_or_pos width with h | h
    · subst h
      simp at h1
      omega
    · exact_mod_cast h
  refine ⟨⟨i % (width : Int), i / (width : Int)⟩, ?_, ?_⟩
  · simp only [Grid.isInside, Bool.and_eq_true, decide_eq_true_eq]
    refine ⟨⟨⟨Int.emod_nonneg i (by omega), ?_⟩, Int.ediv_nonneg h0 (by omega)⟩, ?_⟩
    · rw [hw]
      exact Int.emod_lt_of_pos i hwpos
    · rw [Int.ediv_lt_iff_lt_mul hwpos]
      linarith [h1]
  · have := Int.emod_add_ediv i (width : Int)
    dsimp only
    linarith [this]

/-- The outer loop of precomputeMoves: the grid comes back unchanged, every
scanned slot ends populated with generated moves of the side to move, and
slots outside the reset range are untouched. -/
theorem precomputeCenter_fold {width size : Nat}
    (base : Int → Option (List Move))
    (hEP : EPOk g playing lm) (hw : g.width = width) (hsize : size = width * g.height) :
    ∀ (l : List Point), (∀ c ∈ l, c ∈ g.eachPoints) → l.Nodup →
    ∀ (st : PrecomputeState), st.grid = g →
    (∀ c ∈ g.eachPoints,
      (c ∈ l → st.moveArray (c.x + c.y * (width : Int)) = some []) ∧
      (c ∉ l → ∃ L, st.moveArray (c.x + c.y * (width : Int)) = some L ∧
        ∀ m ∈ L, goodGen g playing lm c m)) →
    (∀ i : Int, ¬(0 ≤ i ∧ i < (size : Int)) → st.moveArray i = base i) →
    ∃ st', l.foldlM (precomputeCenter width playing lm) st = Except.ok st' ∧
      st'.grid = g ∧
      (∀ c ∈ g.eachPoints, ∃ L, st'.moveArray (c.x + c.y * (width : Int)) = some L ∧
        ∀ m ∈ L, goodGen g playing lm c m) ∧
      (∀ i : Int, ¬(0 ≤ i ∧ i < (size : Int)) → st'.moveArray i = base i) := by
  intro l
  induction l with
  | nil =>
    intro _ _ st hst hinv hbase
    refine ⟨st, rfl, hst, ?_, hbase⟩
    intro c hc
    exact (hinv c hc).2 (List.not_mem_nil c)
  | cons c0 rest ih =>
    intro hmem hnd st hst hinv hbase
    have hc0each : c0 ∈ g.eachPoints := hmem c0 (List.mem_cons_self c0 rest)
    have hc0in : g.isInside c0 = true := mem_eachPoints.mp hc0each
    have hc0notrest : c0 ∉ rest := (List.nodup_cons.mp hnd).1
    have hndrest : rest.Nodup := (List.nodup_cons.mp hnd).2
    have hmemrest : ∀ c ∈ rest, c ∈ g.eachPoints :=
      fun c hc => hmem c (List.mem_cons_of_mem _ hc)
    rw [List.foldlM_cons]
    -- evaluate the body at c0
    cases hvc0 : g.valueAt c0 with
    | none =>
      have hcenter : precomputeCenter width playing lm st c0 = Except.ok st := by
        unfold precomputeCenter
        rw [hst, hvc0]
        rfl
      rw [hcenter]
      have hinv2 : ∀ c ∈ g.eachPoints,
          (c ∈ rest → st.moveArray (c.x + c.y * (width : Int)) = some []) ∧
          (c ∉ rest → ∃ L, st.moveArray (c.x + c.y * (width : Int)) = some L ∧
            ∀ m ∈ L, goodGen g playing lm c m) := by
        intro c hc
        refine ⟨fun hcr => (hinv c hc).1 (List.mem_cons_of_mem _ hcr), fun hcr => ?_⟩
        by_cases hcc0 : c = c0
        · subst hcc0
          refine ⟨[], (hinv c hc).1 (List.mem_cons_self c rest), ?_⟩
          intro m hm
          cases hm
        · refine (hinv c hc).2 ?_
          intro hcl
          rcases List.mem_cons.mp hcl with h | h
          · exact hcc0 h
          · exact hcr h
      exact ih hmemrest hndrest st hst hinv2 hbase
    | some piece =>
      by_cases hcol : piece.color = playing
      · have hcolne : ¬(piece.color ≠ playing) := by

          intro h
          exact h hcol
        obtain ⟨t2, vm2, hfold, hsub⟩ :=
          precomputeInner_fold hc0in hvc0 hEP hcol (pieceMove piece c0 g lm)
            (fun m hm => hm) st.takenPiece []
        have hcenter : precomputeCenter width playing lm st c0 = Except.ok
            ⟨st.validMoveCount + vm2.length, g, t2,
              fun i => if i = c0.x + c0.y * (width : Int) then some vm2
                       else st.moveArray i⟩ := by
          unfold precomputeCenter
          rw [hst, hvc0]
          dsimp only
          rw [if_neg hcolne, hfold]
          rfl
        rw [hcenter]
        have hvm2 : ∀ m ∈ vm2, m ∈ pieceMove piece c0 g lm := by
          intro m hm
          rcases hsub m hm with h | h
          · cases h
          · exact h
        set st' : PrecomputeState :=
          ⟨st.validMoveCount + vm2.length, g, t2,
            fun i => if i = c0.x + c0.y * (width : Int) then some vm2
                     else st.moveArray i⟩ with hst'
        have hslotrange := slot_range hc0in hw
        refine ih hmemrest hndrest st' rfl ?_ ?_
        · intro c hc
          constructor
          · intro hcr
            have hcc0 : c ≠ c0 := fun h => hc0notrest (h ▸ hcr)
            have hslot : c.x + c.y * (width : Int) ≠ c0.x + c0.y * (width : Int) := by
              intro h
              exact hcc0 (slot_injective (le_of_eq (congrArg _ hw)) (mem_eachPoints.mp hc)
                hc0in h)
            show (if c.x + c.y * (width : Int) = c0.x + c0.y * (width : Int) then _
              else st.moveArray _) = _
            rw [if_neg hslot]
            exact (hinv c hc).1 (List.mem_cons_of_mem _ hcr)
          · intro hcr
            by_cases hcc0 : c = c0
            · subst hcc0
              refine ⟨vm2, ?_, ?_⟩
              · show (if c.x + c.y * (width : Int) = c.x + c.y * (width : Int) then _
                  else st.moveArray _) = _
                rw [if_pos rfl]
              · intro m hm
                exact ⟨piece, hvc0, hcol, hvm2 m hm⟩
            · have hslot : c.x + c.y * (width : Int) ≠ c0.x + c0.y * (width : Int) := by
                intro h
                exact hcc0 (slot_injective (le_of_eq (congrArg _ hw)) (mem_eachPoints.mp hc)
                  hc0in h)
              have hcl : c ∉ c0 :: rest := by
                intro hcl
                rcases List.mem_cons.mp hcl with h | h
                · exact hcc0 h
                · exact hcr h
              obtain ⟨L, hL, hgood⟩ := (hinv c hc).2 hcl
              refine ⟨L, ?_, hgood⟩
              show (if c.x + c.y * (width : Int) = c0.x + c0.y * (width : Int) then _
                else st.moveArray _) = _
              rw [if_neg hslot]
              exact hL
        · intro i hi
          have hslot : i ≠ c0.x + c0.y * (width : Int) := by
            intro h
            subst h
            refine hi ⟨hslotrange.1, ?_⟩
            rw [hsize]
            push_cast
            exact hslotrange.2
          show (if i = c0.x + c0.y * (width : Int) then _ else st.moveArray i) = _
          rw [if_neg hslot]
          exact hbase i hi
      · have hcolne : piece.color ≠ playing := hcol
        have hcenter : precomputeCenter width playing lm st c0 = Except.ok st := by
          unfold precomputeCenter
          rw [hst, hvc0]
          dsimp only
          rw [if_pos hcolne]
          rfl
        rw [hcenter]
        have hinv2 : ∀ c ∈ g.eachPoints,
            (c ∈ rest → st.moveArray (c.x + c.y * (width : Int)) = some []) ∧
            (c ∉ rest → ∃ L, st.moveArray (c.x + c.y * (width : Int)) = some L ∧
              ∀ m ∈ L, goodGen g playing lm c m) := by
          intro c hc
          refine ⟨fun hcr => (hinv c hc).1 (List.mem_cons_of_mem _ hcr), fun hcr => ?_⟩
          by_cases hcc0 : c = c0
          · subst hcc0
            refine ⟨[], (hinv c hc).1 (List.mem_cons_self c rest), ?_⟩
            intro m hm
            cases hm
          · refine (hinv c hc).2 ?_
            intro hcl
            rcases List.mem_cons.mp hcl with h | h
            · exact hcc0 h
            · exact hcr h
        exact ih hmemrest hndrest st hst hinv2 hbase

/-- Precompute always succeeds in an en-passant-safe position, restores the
grid, populates exactly the in-range slots with generated legal moves of the
side to move, and leaves everything else untouched. -/
theorem precomputeMoves_ok (width size : Nat) (g : Grid) (playing : String)
    (lm : Option Move) (t0 : Option Piece) (ma0 : Int → Option (List Move))
    (hEP : EPOk g playing lm) (hw : g.width = width)
    (hsize : size = width * g.height) :
    ∃ st, precomputeMoves width size g playing lm t0 ma0 = Except.ok st ∧
      st.grid = g ∧
      (∀ c ∈ g.eachPoints, ∃ L, st.moveArray (c.x + c.y * (width : Int)) = some L ∧
        ∀ m ∈ L, goodGen g playing lm c m) ∧
      (∀ i : Int, ¬(0 ≤ i ∧ i < (size : Int)) → st.moveArray i = ma0 i) := by
  have hside1 : ∀ c ∈ g.eachPoints,
      (c ∈ g.eachPoints →
        (⟨0, g, t0, resetMoveArray size ma0⟩ : PrecomputeState).moveArray
          (c.x + c.y * (width : Int)) = some []) ∧
      (c ∉ g.eachPoints →
        ∃ L, (⟨0, g, t0, resetMoveArray size ma0⟩ : PrecomputeState).moveArray
          (c.x + c.y * (width : Int)) = some L ∧
          ∀ m ∈ L, goodGen g playing lm c m) := by
    intro c hc
    constructor
    · intro _
      have hr := slot_range (mem_eachPoints.mp hc) hw
      show resetMoveArray size ma0 _ = _
      unfold resetMoveArray
      rw [if_pos]
      refine ⟨hr.1, ?_⟩
      rw [hsize]
      push_cast
      exact hr.2
    · intro hcl
      exact absurd hc hcl
  have hside2 : ∀ i : Int, ¬(0 ≤ i ∧ i < (size : Int)) →
      (⟨0, g, t0, resetMoveArray size ma0⟩ : PrecomputeState).moveArray i = ma0 i := by
    intro i hi
    show resetMoveArray size ma0 i = ma0 i
    unfold resetMoveArray
    rw [if_neg hi]
  obtain ⟨st', hfold, hgrid, hpop, hout⟩ :=
    precomputeCenter_fold ma0 hEP hw hsize g.eachPoints (fun c hc => hc)
      nodup_eachPoints ⟨0, g, t0, resetMoveArray size ma0⟩ rfl hside1 hside2
  exact ⟨st', hfold, hgrid, hpop, hout⟩

/-- The engine invariant maintained by init and successful moves. -/
def Inv (e : Engine) : Prop :=
  e.grid.width = e.width ∧ e.grid.height = e.height ∧
  e.size = e.width * e.height ∧
  (∀ c ∈ e.grid.eachPoints,
    ∃ L, e.moveArray (c.x + c.y * (e.width : Int)) = some L ∧
      ∀ m ∈ L, goodGen e.grid e.playingColor e.lastMove c m) ∧
  (∀ i : Int, ¬(0 ≤ i ∧ i < (e.size : Int)) → e.moveArray i = none) ∧
  EPOk e.grid e.playingColor e.lastMove

theorem foldl_setValueAt_dims {α : Type} (l : List α) (g0 : Grid)
    (pt : α → Point) (f : α → Option Piece) :
    (l.foldl (fun g i => g.setValueAt (pt i) (f i)) g0).width = g0.width ∧
    (l.foldl (fun g i => g.setValueAt (pt i) (f i)) g0).height = g0.height := by
  induction l generalizing g0 with
  | nil => exact ⟨rfl, rfl⟩
  | cons a l ih =>
    rw [List.foldl_cons]
    exact (ih (g0.setValueAt (pt a) (f a)))

theorem foldl_setValueAt_squares {α : Type} (l : List α) (g0 : Grid)
    (pt : α → Point) (f : α → Option Piece) (s : Int) :
    (l.foldl (fun g i => g.setValueAt (pt i) (f i)) g0).squares s =
      (l.reverse.find? (fun i => decide (s = g0.idx (pt i)))).elim
        (g0.squares s) f := by
  induction l using List.reverseRecOn with
  | nil => rfl
  | append_singleton l a ih =>
    rw [List.foldl_append, List.foldl_cons, List.foldl_nil, List.reverse_append]
    have hidx : ∀ q, (l.foldl (fun g i => g.setValueAt (pt i) (f i)) g0).idx q = g0.idx q := by
      intro q
      unfold Grid.idx
      rw [(foldl_setValueAt_dims l g0 pt f).2]
    rw [List.reverse_singleton, List.singleton_append, List.find?_cons]
    by_cases hpa : s = g0.idx (pt a)
    · have hd : (decide (s = g0.idx (pt a))) = true := decide_eq_true hpa
      rw [Grid.squares_setValueAt, hidx, if_pos hpa, hd]
      rfl
    · have hd : (decide (s = g0.idx (pt a))) = false := decide_eq_false hpa
      rw [Grid.squares_setValueAt, hidx, if_neg hpa, hd]
      exact ih

theorem insertLayout_dims (width size : Nat) (layout : List String) (g0 : Grid) :
    (insertLayout width size layout g0).width = g0.width ∧
    (insertLayout width size layout g0).height = g0.height :=
  foldl_setValueAt_dims _ g0 _ _

/-- Which layout entry ends up in a grid slot: the last index of the scan
whose placement point maps to that slot. -/
theorem insertLayout_squares (width size : Nat) (layout : List String) (g0 : Grid)
    (s : Int) :
    (insertLayout width size layout g0).squares s =
      ((List.range size).reverse.find? (fun i =>
          decide (s = g0.idx ⟨((i % width : Nat) : Int), ((i / width : Nat) : Int)⟩))).elim
        (g0.squares s) (fun i => pieceFromCode (layout.getD i "")) := by
  unfold insertLayout
  exact foldl_setValueAt_squares (List.range size) g0
    (fun i => ⟨((i % width : Nat) : Int), ((i / width : Nat) : Int)⟩)
    (fun i => pieceFromCode (layout.getD i "")) s

/-- Successful initialisation: the characterisation of every field of the
engine init produces, together with the invariant. -/
theorem init_ok (e : Engine) (layout : List String)
    (hw1 : e.grid.width = e.width) (hw2 : e.grid.height = e.height)
    (hs : e.size = e.width * e.height)
    (ho : ∀ i : Int, ¬(0 ≤ i ∧ i < (e.size : Int)) → e.moveArray i = none)
    (hlen : layout.length = e.size) :
    ∃ e', ChessEngine.init e layout = Except.ok e' ∧ Inv e' ∧
      e'.playingColor = PieceColor.WHITE ∧ e'.lastMove = none ∧
      e'.isGameOver = false ∧
      e'.width = e.width ∧ e'.height = e.height ∧ e'.size = e.size ∧
      e'.grid = insertLayout e.width e.size layout e.grid := by
  have hgP := insertLayout_dims e.width e.size layout e.grid
  obtain ⟨st, hpre, hgrid, hpop, hout⟩ :=
    precomputeMoves_ok e.width e.size (insertLayout e.width e.size layout e.grid)
      PieceColor.WHITE none none e.moveArray EPOk_of_lastMove_none
      (by rw [hgP.1, hw1]) (by rw [hgP.2, hw2, ← hs])
  refine ⟨{ e with grid := st.grid
                   moveArray := st.moveArray
                   playingColor := PieceColor.WHITE
                   takenPiece := st.takenPiece
                   lastMove := none
                   isGameOver := false },
    ?_, ?_, rfl, rfl, rfl, rfl, rfl, rfl, hgrid⟩
  · unfold ChessEngine.init
    rw [if_neg (fun h => h hlen)]
    show precomputeMoves e.width e.size _ _ _ _ _ >>= _ = _
    rw [hpre]
    rfl
  · refine ⟨?_, ?_, hs, ?_, ?_, ?_⟩
    · show st.grid.width = e.width
      rw [hgrid, hgP.1, hw1]
    · show st.grid.height = e.height
      rw [hgrid, hgP.2, hw2]
    · show ∀ c ∈ st.grid.eachPoints, _
      rw [hgrid]
      exact hpop
    · intro i hi
      show st.moveArray i = none
      rw [hout i hi]
      exact ho i hi
    · show EPOk st.grid PieceColor.WHITE none
      rw [hgrid]
      exact EPOk_of_lastMove_none

theorem isInside_eq_of_dims {g3 : Grid} (hw : g3.width = g.width)
    (hh : g3.height = g.height) (p : Point) : g3.isInside p = g.isInside p := by
  unfold Grid.isInside
  rw [hw, hh]

theorem idx_eq_of_height {g3 : Grid} (hh : g3.height = g.height) (p : Point) :
    g3.idx p = g.idx p := by
  unfold Grid.idx
  rw [hh]

theorem pawnForward_step {p : Piece} {fuel : Nat} {pos : Point} {mv : Move}
    (hm : mv ∈ pawnForward p c g (fuel + 1) pos) :
    (mv = Move.basic p MoveType.move c pos ∧ g.valueAt pos = none) ∨
    (mv ∈ pawnForward p c g fuel (pos.add (pawnDirection p.color)) ∧
      g.valueAt pos = none) := by
  rw [pawnForward] at hm
  split at hm
  · split at hm
    · cases hm
    · rename_i hval
      rcases List.mem_cons.mp hm with h | h
      · exact Or.inl ⟨h, hval⟩
      · exact Or.inr ⟨h, hval⟩
  · cases hm

theorem pawnCapturingDirections_x {color : String} {d : Point}
    (hd : d ∈ pawnCapturingDirections color) : d.x = -1 ∨ d.x = 1 := by
  unfold pawnCapturingDirections at hd
  split at hd
  · have h2 : d = (⟨-1, -1⟩ : Point) ∨ d = (⟨1, -1⟩ : Point) := by
      simpa using hd
    rcases h2 with rfl | rfl
    · exact Or.inl rfl
    · exact Or.inr rfl
  · have h2 : d = (⟨-1, 1⟩ : Point) ∨ d = (⟨1, 1⟩ : Point) := by
      simpa using hd
    rcases h2 with rfl | rfl
    · exact Or.inl rfl
    · exact Or.inr rfl

/-- Exhaustive shape analysis of pawn candidates: a one-step advance, a
two-step advance over two empty squares, or a sideways destination. -/
theorem pawnMove_cases {pc : Piece} {mv : Move} (hm : mv ∈ pawnMove pc c g lm) :
    (mv = Move.basic pc MoveType.move c (c.add (pawnDirection pc.color)) ∧
      g.valueAt (c.add (pawnDirection pc.color)) = none) ∨
    (mv = Move.basic pc MoveType.move c
        ((c.add (pawnDirection pc.color)).add (pawnDirection pc.color)) ∧
      g.valueAt (c.add (pawnDirection pc.color)) = none ∧
      g.valueAt ((c.add (pawnDirection pc.color)).add (pawnDirection pc.color)) = none) ∨
    (mv.from' = c ∧ mv.to'.x ≠ c.x) := by
  unfold pawnMove at hm
  dsimp only at hm
  rw [List.append_assoc, List.mem_append, List.mem_append] at hm
  rcases hm with hm | hm | hm
  · -- forward
    by_cases hmoved : pc.moved
    · rw [if_pos hmoved] at hm
      rcases pawnForward_step hm with ⟨h1, h2⟩ | ⟨h1, h2⟩
      · exact Or.inl ⟨h1, h2⟩
      · cases h1
    · rw [if_neg hmoved] at hm
      rcases pawnForward_step hm with ⟨h1, h2⟩ | ⟨h1, h2⟩
      · exact Or.inl ⟨h1, h2⟩
      · rcases pawnForward_step h1 with ⟨h3, h4⟩ | ⟨h3, h4⟩
        · exact Or.inr (Or.inl ⟨h3, h2, h4⟩)
        · cases h3
  · -- diagonal capture
    rw [List.mem_filterMap] at hm
    obtain ⟨dir, hdir, hf⟩ := hm
    have hdx := pawnCapturingDirections_x hdir
    split at hf
    · split at hf
      · split at hf
        · injection hf with hf
          subst hf
          refine Or.inr (Or.inr ⟨rfl, ?_⟩)
          rw [Move.to', Point.add_def]
          dsimp
          omega
        · cases hf
      · cases hf
    · cases hf
  · -- en passant
    split at hm
    · rename_i lmv
      split at hm
      · rw [List.mem_filterMap] at hm
        obtain ⟨side, hside, hf⟩ := hm
        have hside2 : side = (⟨-1, 0⟩ : Point) ∨ side = (⟨1, 0⟩ : Point) := by
          simpa [pawnSides] using hside
        have hsx : side.x = -1 ∨ side.x = 1 := by
          rcases hside2 with rfl | rfl
          · exact Or.inl rfl
          · exact Or.inr rfl
        split at hf
        · split at hf
          · injection hf with hf
            subst hf
            refine Or.inr (Or.inr ⟨rfl, ?_⟩)
            rw [Move.to', Point.add_def, Point.add_def]
            dsimp
            have hdx := pawnDirection_x pc.color
            omega
          · cases hf
        · cases hf
      · cases hm
    · cases hm

/-- En passant safety is re-established after any successful move: the only
en passant candidates the new last move enables point at the square the
two-step pawn advance jumped over, which stays empty. -/
theorem EPOk_next {g g3 : Grid} {mv : Move} {cstar : Point} {playing' : String}
    {pcm : Piece} {lmOld : Option Move}
    (hw : g3.width = g.width) (hh : g3.height = g.height)
    (hcs : g.isInside cstar = true)
    (hmv : mv ∈ pieceMove pcm cstar g lmOld)
    (hframe : ∀ i, i ∉ stepTouched g mv → g3.squares i = g.squares i) :
    EPOk g3 playing' (some mv) := by
  intro c' pc' m' hc' hv' hcol' hm' hmt'
  rcases GenFacts_moveType (pieceMove_facts hm') with ⟨h, _⟩ | ⟨h, _⟩ | ⟨h, _⟩ | ⟨_, hef⟩
  · rw [h] at hmt'
    cases hmt'
  · rw [h] at hmt'
    cases hmt'
  · rw [h] at hmt'
    cases hmt'
  · obtain ⟨s', lmv, hs', hlm, hlk, hlc, hsh, hlto, hlfrom, hinCA⟩ := hef
    injection hlm with hlm
    subst hlm
    have hpf := GenFacts_piece_from (pieceMove_facts hmv)
    have hkind : pcm.kind = PieceKind.pawn := by
      rw [← hpf.1]
      exact hlk
    have hmv2 : mv ∈ pawnMove pcm cstar g lmOld := by
      rw [pieceMove, hkind] at hmv
      exact hmv
    have hdy' := pawnDirection_y pc'.color
    have hdy := pawnDirection_y pcm.color
    have hdx := pawnDirection_x pcm.color
    rcases pawnMove_cases hmv2 with ⟨hsh1, hemp1⟩ | ⟨hsh2, hemp1, hemp2⟩ | ⟨hfrom0, hto0⟩
    · -- a one-step advance cannot satisfy the two-step geometry
      exfalso
      rw [hsh1] at hlto hlfrom
      rw [Move.to'] at hlto
      rw [Move.from'] at hlfrom
      have h1 : cstar.y + (pawnDirection pcm.color).y = c'.y := by
        have h2 := congrArg Point.y hlto
        dsimp at h2
        omega
      have h2 : cstar.y = c'.y + 2 * (pawnDirection pc'.color).y := by
        have h3 := congrArg Point.y hlfrom
        dsimp at h3
        omega
      rcases hdy with hdd | hdd <;> rcases hdy' with hdd' | hdd' <;> omega
    · -- the two-step advance: the jumped square stays empty in the new grid
      rw [hsh2] at hlto hlfrom
      rw [Move.to'] at hlto
      rw [Move.from'] at hlfrom
      have hx1 : cstar.x = c'.x + s' := by
        have h1 := congrArg Point.x hlto
        dsimp at h1
        omega
      have hy1 : cstar.y + 2 * (pawnDirection pcm.color).y = c'.y := by
        have h1 := congrArg Point.y hlto
        dsimp at h1
        omega
      have hy2 : cstar.y = c'.y + 2 * (pawnDirection pc'.color).y := by
        have h1 := congrArg Point.y hlfrom
        dsimp at h1
        omega
      have hdyrel : (pawnDirection pc'.color).y = -(pawnDirection pcm.color).y := by
        omega
      have hbc : (0 ≤ cstar.x ∧ cstar.x < (g.width : Int)) ∧
          0 ≤ cstar.y ∧ cstar.y < (g.height : Int) := by
        simp only [Grid.isInside, Bool.and_eq_true, decide_eq_true_eq] at hcs
        exact ⟨⟨hcs.1.1.1, hcs.1.1.2⟩, hcs.1.2, hcs.2⟩
      have hinT : g.isInside
          (⟨cstar.x, cstar.y + 2 * (pawnDirection pcm.color).y⟩ : Point) = true := by
        have h1 := hinCA
        rw [isInside_eq_of_dims hw hh] at h1
        have h2 : (⟨c'.x + s', c'.y⟩ : Point) =
            ⟨cstar.x, cstar.y + 2 * (pawnDirection pcm.color).y⟩ := by
          simp only [Point.mk.injEq]
          omega
        rw [h2] at h1
        exact h1
      have hbT : 0 ≤ cstar.y + 2 * (pawnDirection pcm.color).y ∧
          cstar.y + 2 * (pawnDirection pcm.color).y < (g.height : Int) := by
        simp only [Grid.isInside, Bool.and_eq_true, decide_eq_true_eq] at hinT
        exact ⟨hinT.1.2, hinT.2⟩
      have hT2 : ((cstar.add (pawnDirection pcm.color)).add (pawnDirection pcm.color)) =
          ⟨cstar.x, cstar.y + 2 * (pawnDirection pcm.color).y⟩ := by
        rw [Point.add_def, Point.add_def, Point.mk.injEq]
        constructor
        · dsimp
          omega
        · dsimp
          omega
      have hmid : (cstar.add (pawnDirection pcm.color)) =
          ⟨cstar.x, cstar.y + (pawnDirection pcm.color).y⟩ := by
        rw [Point.add_def, Point.mk.injEq]
        constructor
        · omega
        · rfl
      have htarget : (⟨c'.x + s', c'.y + (pawnDirection pc'.color).y⟩ : Point) =
          ⟨cstar.x, cstar.y + (pawnDirection pcm.color).y⟩ := by
        simp only [Point.mk.injEq]
        omega
      rw [hsh, Move.to', htarget]
      have hnotmem : g.idx (⟨cstar.x, cstar.y + (pawnDirection pcm.color).y⟩ : Point) ∉
          stepTouched g mv := by
        rw [hsh2]
        simp only [stepTouched, Move.from', Move.to', List.mem_cons, List.not_mem_nil,
          or_false, not_or]
        rw [hT2]
        unfold Grid.idx
        dsimp
        constructor
        · rcases hdy with hdd | hdd <;> rw [hdd] <;> ring_nf <;> omega
        · rcases hdy with hdd | hdd <;> rw [hdd] <;> ring_nf <;> omega
      constructor
      · unfold Grid.valueAt
        rw [idx_eq_of_height hh, hframe _ hnotmem]
        rw [hmid] at hemp1
        unfold Grid.valueAt at hemp1
        exact hemp1
      · rw [isInside_eq_of_dims hw hh]
        simp only [Grid.isInside, Bool.and_eq_true, decide_eq_true_eq]
        rcases hdy with hdd | hdd <;> rw [hdd] at hbT ⊢ <;>
          refine ⟨⟨⟨by omega, by omega⟩, by omega⟩, by omega⟩
    · -- sideways destinations cannot satisfy the straight two-step geometry
      exfalso
      apply hto0
      rw [hlto]
      have h1 : cstar.x = c'.x + s' := by
        rw [hfrom0] at hlfrom
        have h2 := congrArg Point.x hlfrom
        dsimp at h2
        omega
      dsimp
      omega

theorem exceptBindOk {ε α β : Type} (a : α) (k : α → Except ε β) :
    (Except.ok a >>= k) = k a := rfl

theorem exceptPureBind {ε α β : Type} (a : α) (k : α → Except ε β) :
    ((pure a : Except ε α) >>= k) = k a := rfl

theorem idx_to_mem_stepTouched (g : Grid) (m : Move) :
    g.idx m.to' ∈ stepTouched g m := by
  cases m <;> simp [stepTouched, Move.to']

theorem exceptBindError {ε α β : Type} (s : ε) (k : α → Except ε β) :
    ((Except.error s : Except ε α) >>= k) = Except.error s := rfl

theorem setMovedTrue_dims (g : Grid) (p : Point) :
    (setMovedTrue g p).width = g.width ∧ (setMovedTrue g p).height = g.height := by
  unfold setMovedTrue
  split <;> exact ⟨rfl, rfl⟩

/-- Rebuilding the index after a successful move restores the invariant. -/
theorem inv_after_precompute {e : Engine} {g3 : Grid} {m : Move}
    {taken1 : Option Piece} {st : PrecomputeState}
    (hsz : e.size = e.width * e.height)
    (ho : ∀ i : Int, ¬(0 ≤ i ∧ i < (e.size : Int)) → e.moveArray i = none)
    (hdw : g3.width = e.width) (hdh : g3.height = e.height)
    (hEP3 : EPOk g3 (swapPlayingColor e.playingColor) (some m))
    (hpre : precomputeMoves e.width e.size g3 (swapPlayingColor e.playingColor)
      (some m) taken1 e.moveArray = Except.ok st) :
    Inv { e with grid := st.grid
                 moveArray := st.moveArray
                 playingColor := swapPlayingColor e.playingColor
                 takenPiece := st.takenPiece
                 lastMove := some m
                 isGameOver := decide (st.validMoveCount = 0) } := by
  obtain ⟨st', hpre', hgrid, hpop, hout⟩ :=
    precomputeMoves_ok e.width e.size g3 (swapPlayingColor e.playingColor) (some m)
      taken1 e.moveArray hEP3 hdw (by rw [hdh, hsz])
  have hst : st' = st := by
    have h2 := hpre.symm.trans hpre'
    injection h2 with h2
    exact h2.symm
  subst hst
  refine ⟨?_, ?_, hsz, ?_, ?_, ?_⟩
  · show st'.grid.width = e.width
    rw [hgrid, hdw]
  · show st'.grid.height = e.height
    rw [hgrid, hdh]
  · show ∀ c ∈ st'.grid.eachPoints, _
    rw [hgrid]
    exact hpop
  · intro i hi
    show st'.moveArray i = none
    rw [hout i hi]
    exact ho i hi
  · show EPOk st'.grid _ _
    rw [hgrid]
    exact hEP3

/-- A successful public move preserves the engine invariant. -/
theorem move_success {e : Engine} {pf pt : Point} {pcode : Option String}
    {out : MoveOutcome}
    (hInv : Inv e)
    (h : ChessEngine.move e pf pt pcode = Except.ok out)
    (hs : out.success = true) :
    Inv out.engine := by
  obtain ⟨hw1, hw2, hsz, hb, ho, hEP⟩ := hInv
  unfold ChessEngine.move at h
  split at h
  · injection h with h2
    rw [← h2] at hs
    cases hs
  · split at h
    · cases h
    · rename_i moves hlook
      split at h
      · injection h with h2
        rw [← h2] at hs
        cases hs
      · rename_i m hfind
        -- provenance of the found move
        have hmem : m ∈ moves := List.mem_of_find?_eq_some hfind
        unfold ChessEngine.getMovesAtPoint at hlook
        have hrange : 0 ≤ pf.x + pf.y * (e.width : Int) ∧
            pf.x + pf.y * (e.width : Int) < (e.size : Int) := by
          by_contra hcon
          rw [ho _ hcon] at hlook
          cases hlook
        obtain ⟨cstar, hcsin, hslot⟩ := slot_surjective hw1
          hrange.1 (by
            have h2 := hrange.2
            rw [hsz] at h2
            push_cast at h2 ⊢
            rw [hw2]
            exact h2)
        obtain ⟨L, hL, hgood⟩ := hb cstar (mem_eachPoints.mpr hcsin)
        rw [hslot, hlook] at hL
        injection hL with hL
        have hgm : goodGen e.grid e.playingColor e.lastMove cstar m := by
          apply hgood
          rw [← hL]
          exact hmem
        obtain ⟨pcm, hvcs, hcolm, hmvgen⟩ := hgm
        -- the step
        cases hstep : step e.grid e.takenPiece m with
        | error s =>
          rw [hstep, exceptBindError] at h
          cases h
        | ok pair =>
          obtain ⟨g1, taken1⟩ := pair
          rw [hstep, exceptBindOk] at h
          dsimp only at h
          obtain ⟨hd1, hd2, hframe1⟩ := step_frame hstep
          -- the flag/promotion stage: in every surviving branch the grid g3
          -- only differs from the original on slots touched by step
          have hmain : ∀ (g3 : Grid),
              g3.width = e.grid.width → g3.height = e.grid.height →
              (∀ i, i ∉ stepTouched e.grid m → g3.squares i = e.grid.squares i) →
              (precomputeMoves e.width e.size g3 (swapPlayingColor e.playingColor)
                (some m) taken1 e.moveArray >>= fun st =>
                  pure (⟨true, some m,
                    { e with grid := st.grid
                             moveArray := st.moveArray
                             playingColor := swapPlayingColor e.playingColor
                             takenPiece := st.takenPiece
                             lastMove := some m
                             isGameOver := decide (st.validMoveCount = 0) }⟩ :
                    MoveOutcome)) = Except.ok out →
              Inv out.engine := by
            intro g3 hg3w hg3h hg3frame hrun
            have hEP3 : EPOk g3 (swapPlayingColor e.playingColor) (some m) :=
              EPOk_next hg3w hg3h hcsin hmvgen hg3frame
            obtain ⟨st, hpre, _, _, _⟩ :=
              precomputeMoves_ok e.width e.size g3 (swapPlayingColor e.playingColor)
                (some m) taken1 e.moveArray hEP3 (by rw [hg3w, hw1])
                (by rw [hg3h, hw2, hsz])
            rw [hpre, exceptBindOk] at hrun
            injection hrun with hrun
            rw [← hrun]
            exact inv_after_precompute hsz ho (by rw [hg3w, hw1]) (by rw [hg3h, hw2])
              hEP3 hpre
          split at h
          · -- castle branch: the shape match on the move
            rename_i hcastle
            split at h
            · rename_i p0 mt0 f0 tt0 rk0 rf0 rt0
              rw [exceptPureBind] at h
              refine hmain _ ?_ ?_ ?_ h
              · simp only [Grid.width_setMovedTrue]
                exact hd1
              · simp only [Grid.height_setMovedTrue]
                exact hd2
              · intro i hi
                have hi2 := hi
                simp only [stepTouched, List.mem_cons, List.not_mem_nil, or_false,
                  not_or] at hi2
                obtain ⟨hif, hit, hirf, hirt⟩ := hi2
                have hI2 : (setMovedTrue g1
                    (Move.castleMove p0 mt0 f0 tt0 rk0 rf0 rt0).to').idx rt0 =
                    e.grid.idx rt0 := by
                  refine idx_eq_of_height ?_ rt0
                  rw [Grid.height_setMovedTrue]
                  exact hd2
                have hI1 : g1.idx (Move.castleMove p0 mt0 f0 tt0 rk0 rf0 rt0).to' =
                    e.grid.idx (Move.castleMove p0 mt0 f0 tt0 rk0 rf0 rt0).to' :=
                  idx_eq_of_height hd2 _
                rw [Grid.squares_setMovedTrue_ne (by rw [hI2]; exact hirt),
                  Grid.squares_setMovedTrue_ne (by rw [hI1]; exact hit)]
                exact hframe1 i hi
            · rw [exceptBindError] at h
              cases h
          · -- not a castle
            rename_i hncastle
            split at h
            · -- a promotion code was supplied
              rename_i htruthy
              split at h
              · rw [exceptBindError] at h
                cases h
              · rename_i hpawn
                split at h
                · rename_i pp hpp
                  rw [exceptPureBind] at h
                  refine hmain _ ?_ ?_ ?_ h
                  · simp only [Grid.width_setValueAt, Grid.width_setMovedTrue]
                    exact hd1
                  · simp only [Grid.height_setValueAt, Grid.height_setMovedTrue]
                    exact hd2
                  · intro i hi
                    have hito : i ≠ e.grid.idx m.to' :=
                      fun hq => hi (hq ▸ idx_to_mem_stepTouched e.grid m)
                    have hI : (setMovedTrue g1 m.to').idx m.to' = e.grid.idx m.to' := by
                      refine idx_eq_of_height ?_ m.to'
                      rw [Grid.height_setMovedTrue]
                      exact hd2
                    rw [Grid.squares_setValueAt, if_neg (by rw [hI]; exact hito),
                      Grid.squares_setMovedTrue_ne
                        (by rw [idx_eq_of_height hd2]; exact hito)]
                    exact hframe1 i hi
                · rw [exceptBindError] at h
                  cases h
            · -- plain move
              rw [exceptPureBind] at h
              refine hmain _ ?_ ?_ ?_ h
              · simp only [Grid.width_setMovedTrue]
                exact hd1
              · simp only [Grid.height_setMovedTrue]
                exact hd2
              · intro i hi
                rw [Grid.squares_setMovedTrue_ne (by
                  rw [idx_eq_of_height hd2]
                  exact fun hq => hi (hq ▸ idx_to_mem_stepTouched e.grid m))]
                exact hframe1 i hi

/-- A layout of the wrong length makes init throw, touching nothing. -/
theorem init_error (e : Engine) (layout : List String)
    (hlen : layout.length ≠ e.size) :
    ChessEngine.init e layout = Except.error "Invalid plan size" := by
  unfold ChessEngine.init
  rw [if_pos hlen]

theorem init_inv {e e' : Engine} {layout : List String}
    (hw1 : e.grid.width = e.width) (hw2 : e.grid.height = e.height)
    (hs : e.size = e.width * e.height)
    (ho : ∀ i : Int, ¬(0 ≤ i ∧ i < (e.size : Int)) → e.moveArray i = none)
    (h : ChessEngine.init e layout = Except.ok e') : Inv e' := by
  by_cases hlen : layout.length = e.size
  · obtain ⟨e'', h2, hinv, _⟩ := init_ok e layout hw1 hw2 hs ho hlen
    rw [h2] at h
    injection h with h
    rw [← h]
    exact hinv
  · rw [init_error e layout hlen] at h
    cases h

theorem mkEngine_facts (width height : Int) :
    (mkEngine width height).grid.width = (mkEngine width height).width ∧
    (mkEngine width height).grid.height = (mkEngine width height).height ∧
    (mkEngine width height).size =
      (mkEngine width height).width * (mkEngine width height).height ∧
    (∀ i : Int, (mkEngine width height).moveArray i = none) ∧
    (mkEngine width height).isGameOver = true :=
  ⟨rfl, rfl, rfl, fun _ => rfl, rfl⟩

/-- Every reachable engine state satisfies the invariant. -/
theorem reachable_inv {e : Engine} (h : Reachable e) : Inv e := by
  induction h with
  | init width height layout e h =>
    have hf := mkEngine_facts width height
    exact init_inv hf.1 hf.2.1 hf.2.2.1 (fun i _ => hf.2.2.2.1 i) h
  | reinit e0 layout e h0 h ih =>
    obtain ⟨hw1, hw2, hsz, hb, ho, hEP⟩ := ih
    exact init_inv hw1 hw2 hsz ho h
  | move e0 pf pt pc out h0 h hs ih =>
    exact move_success ih h hs

/-- The failure path of the public move: game over, or no stored move at the
origin reaches the target.  The state is returned untouched. -/
theorem move_fail {e : Engine} {pf pt : Point} (pcode : Option String)
    (hInv : Inv e) (hin : e.grid.isInside pf = true)
    (hrej : e.isGameOver = true ∨ ∀ m ∈ legalMovesAt e pf, m.to' ≠ pt) :
    ∃ res, ChessEngine.move e pf pt pcode = Except.ok res ∧
      res.success = false ∧ res.engine = e := by
  by_cases hgo : e.isGameOver = true
  · refine ⟨⟨false, none, e⟩, ?_, rfl, rfl⟩
    unfold ChessEngine.move
    rw [hgo]
    rfl
  · have hgo' : e.isGameOver = false := by
      cases hB : e.isGameOver
      · rfl
      · exact absurd hB hgo
    have hnot : ∀ m ∈ legalMovesAt e pf, m.to' ≠ pt := hrej.resolve_left hgo
    obtain ⟨L, hL, _⟩ := hInv.2.2.2.1 pf (mem_eachPoints.mpr hin)
    have hlook : ChessEngine.getMovesAtPoint e pf = some L := hL
    have hLM : legalMovesAt e pf = L := by
      unfold legalMovesAt
      rw [hlook]
      rfl
    have hfind : List.find? (fun m => decide (m.to' = pt)) L = none := by
      rw [List.find?_eq_none]
      intro m hm
      simp only [decide_eq_true_eq]
      rw [← hLM] at hm
      exact hnot m hm
    refine ⟨⟨false, L.getLast?, e⟩, ?_, rfl, rfl⟩
    unfold ChessEngine.move
    split
    · rename_i hc
      rw [hgo'] at hc
      cases hc
    · split
      · rename_i hnone
        rw [hlook] at hnone
        cases hnone
      · rename_i moves hmoves
        have hML : moves = L := by
          rw [hlook] at hmoves
          injection hmoves with h2
          exact h2.symm
        subst hML
        split
        · rfl
        · rename_i m hf1
          rw [hfind] at hf1
          cases hf1

end EngineInvariants

section ClaimSupport

/-- When the threatens test of the source fires: a capturing enemy
candidate on the king square, or, for a castle candidate, any enemy
candidate on the king square or a castle king square. -/
theorem threatens_eq_true {kp : Point} {m em : Move} :
    threatens kp m em = true ↔
      (em.moveType = MoveType.capture ∧ kp = em.to') ∨
      (m.moveType = MoveType.castle ∧
        (kp = em.to' ∨ em.to' ∈ m.kingPositions)) := by
  unfold threatens
  split_ifs with h1 h2 h3
  · simp [h1.1, h1.2]
  · rw [not_and_or, not_not, not_not] at h1
    simp only [eq_self_iff_true, true_iff]
    rcases h1 with h | h
    · exact Or.inl ⟨h, h2⟩
    · exact Or.inr ⟨h, Or.inl h2⟩
  · rw [List.any_eq_true]
    constructor
    · rintro ⟨kp2, hkp2, hd⟩
      rw [decide_eq_true_eq] at hd
      exact Or.inr ⟨h3, Or.inr (hd ▸ hkp2)⟩
    · rintro (⟨hc, hkp⟩ | ⟨_, hkp | hmem⟩)
      · exact absurd hkp h2
      · exact absurd hkp h2
      · exact ⟨em.to', hmem, by simp⟩
  · simp [h2, h3]

theorem range_flatMap_eq (w h : Nat) (P : Nat → Nat → Point) :
    (List.range w).flatMap (fun x => (List.range h).map (fun y => P x y)) =
      (List.range (w * h)).map (fun i => P (i / h) (i % h)) := by
  induction w with
  | zero => simp
  | succ w ih =>
    rw [List.range_succ, List.flatMap_append, ih, Nat.succ_mul, List.range_add,
      List.map_append]
    congr 1
    rw [List.flatMap_cons, List.flatMap_nil, List.append_nil, List.map_map]
    refine (List.map_congr_left ?_).symm
    intro y hy
    rw [List.mem_range] at hy
    have h0 : 0 < h := by omega
    simp only [Function.comp_apply]
    have hdiv : (w * h + y) / h = w := by
      rw [Nat.add_comm, Nat.add_mul_div_right _ _ h0, Nat.div_eq_of_lt hy,
        Nat.zero_add]
    have hmod : (w * h + y) % h = y := by
      rw [Nat.add_comm, Nat.add_mul_mod_self_right, Nat.mod_eq_of_lt hy]
    rw [hdiv, hmod]

/-- The scan order as one formula: entry i of the traversal is the point
(i / height, i mod height). -/
theorem eachPoints_eq_range_map (g : Grid) :
    g.eachPoints = (List.range (g.width * g.height)).map
      (fun i => (⟨((i / g.height : Nat) : Int), ((i % g.height : Nat) : Int)⟩ : Point)) := by
  unfold Grid.eachPoints
  exact range_flatMap_eq g.width g.height
    (fun x y => (⟨(x : Int), (y : Int)⟩ : Point))

/-- getState lists exactly the occupied squares, in scan order. -/
theorem getState_points (e : Engine) :
    (ChessEngine.getState e).map Prod.snd =
      e.grid.eachPoints.filter (fun c => (e.grid.valueAt c).isSome) := by
  unfold ChessEngine.getState
  generalize e.grid.eachPoints = l
  induction l with
  | nil => rfl
  | cons a l ih =>
    cases hv : e.grid.valueAt a <;>
      simp [List.filterMap_cons, List.filter_cons, hv, ih]

end ClaimSupport

/-- C1: the legality filter with a king of the side to move on the stepped
board: the validated candidate is rejected iff some enemy candidate is a
capturing move landing on the king square, or the candidate is a castle and
some enemy candidate of ANY move type lands on the king square or on one of
the three castle king squares.  This corrects the claim, which says enemy
candidates that are not capturing-type never cause rejection: for castle
candidates they do. -/
theorem claim_C1_rejection_iff {g : Grid} {playing : String} {lm : Option Move}
    {m : Move} {kp : Point} {enemies : List Point}
    (hscan : kingScan g playing = (some kp, enemies)) :
    validatePosition g playing lm m = false ↔
      ∃ position ∈ enemies, ∃ em ∈ enemyMovesAt g lm position,
        (em.moveType = MoveType.capture ∧ kp = em.to') ∨
        (m.moveType = MoveType.castle ∧
          (kp = em.to' ∨ em.to' ∈ m.kingPositions)) := by
  unfold validatePosition
  rw [hscan]
  show (!(enemies.any (fun position =>
      (enemyMovesAt g lm position).any (threatens kp m)))) = false ↔ _
  simp only [Bool.not_eq_false', List.any_eq_true, threatens_eq_true]

/-- C1 witness: the characterisation applied to the stepped castle position
g1C, whose king scan finds the king at (1,0) and one enemy at (3,3). -/
theorem claim_C1_rejection_iff_witness :
    kingScan g1C PieceColor.WHITE = (some ⟨1, 0⟩, [⟨3, 3⟩]) ∧
    (validatePosition g1C PieceColor.WHITE none mC = false ↔
      ∃ position ∈ [(⟨3, 3⟩ : Point)], ∃ em ∈ enemyMovesAt g1C none position,
        (em.moveType = MoveType.capture ∧ (⟨1, 0⟩ : Point) = em.to') ∨
        (mC.moveType = MoveType.castle ∧
          ((⟨1, 0⟩ : Point) = em.to' ∨ em.to' ∈ mC.kingPositions))) :=
  ⟨rfl, claim_C1_rejection_iff rfl⟩

/-- C1 counterexample: in the stepped position g1C the castle mC is
rejected by validatePosition although no enemy candidate at all is of
capturing type, and the threat test as the spec words it finds no threat. -/
theorem claim_C1_counterexample :
    validatePosition g1C PieceColor.WHITE none mC = false ∧
    ((kingScan g1C PieceColor.WHITE).2.flatMap (enemyMovesAt g1C none)).filter
        (fun em => em.moveType = MoveType.capture) = [] ∧
    ((kingScan g1C PieceColor.WHITE).2.all (fun position =>
      (enemyMovesAt g1C none position).all
        (fun em => !(specThreatens ⟨1, 0⟩ mC em)))) = true := by
  decide

/-- C2: contrary to the claim, the castle scan of King.move never compares
the rook color: on gC the unmoved white king at (3,0) is offered a castle
whose rook is the unmoved black rook at (0,0). -/
theorem claim_C2_enemy_rook_castle :
    (kingMove ⟨"w", PieceKind.king, false⟩ ⟨3, 0⟩ gC).filter
        (fun m => m.moveType = MoveType.castle) =
      [Move.castleMove ⟨"w", PieceKind.king, false⟩ MoveType.castle ⟨3, 0⟩ ⟨1, 0⟩
        ⟨"b", PieceKind.rook, false⟩ ⟨0, 0⟩ ⟨2, 0⟩] ∧
    gC.valueAt ⟨0, 0⟩ = some ⟨"b", PieceKind.rook, false⟩ := by
  decide

/-- C3: in a reachable state, for an origin inside the board, a move to a
target that is not among the precomputed legal moves of the origin, or any
move while the game is over, returns success false and the engine
unchanged. -/
theorem claim_C3_illegal_move_rejected {e : Engine} {pf pt : Point}
    (pcode : Option String) (hR : Reachable e)
    (hin : e.grid.isInside pf = true)
    (hrej : e.isGameOver = true ∨ pt ∉ (legalMovesAt e pf).map Move.to') :
    ∃ res, ChessEngine.move e pf pt pcode = Except.ok res ∧
      res.success = false ∧ res.engine = e := by
  refine move_fail pcode (reachable_inv hR) hin ?_
  rcases hrej with h | h
  · exact Or.inl h
  · exact Or.inr (fun m hm hmeq => h (List.mem_map.mpr ⟨m, hm, hmeq⟩))

/-- C3 witness: the concrete 3 by 3 engine e1 rejects moving the king from
(0,0) to the far corner (2,2). -/
theorem claim_C3_witness :
    ∃ res, ChessEngine.move e1 ⟨0, 0⟩ ⟨2, 2⟩ none = Except.ok res ∧
      res.success = false ∧ res.engine = e1 :=
  claim_C3_illegal_move_rejected none (Reachable.init 3 3 layout0 e1 rfl)
    rfl (Or.inr (by decide))

/-- C4: in every reachable state, every candidate the generator produces
for a piece of the side to move steps and then undoes back to exactly the
prior grid. -/
theorem claim_C4_step_undo_roundtrip {e : Engine} {c : Point} {pc : Piece}
    {m : Move} (t : Option Piece) (hR : Reachable e)
    (hc : e.grid.isInside c = true) (hv : e.grid.valueAt c = some pc)
    (hcol : pc.color = e.playingColor)
    (hm : m ∈ pieceMove pc c e.grid e.lastMove) :
    ∃ g1 t1, step e.grid t m = Except.ok (g1, t1) ∧
      undo g1 t1 m = Except.ok e.grid :=
  step_undo_restore hc hv (pieceMove_facts hm)
    (fun hmt => (reachable_inv hR).2.2.2.2.2 c pc m hc hv hcol hm hmt)

/-- C4 witness: the king step from (0,0) to (1,0) on e1 and its undo. -/
theorem claim_C4_witness :
    ∃ g1 t1,
      step e1.grid e1.takenPiece
          (Move.basic ⟨"w", PieceKind.king, false⟩ MoveType.move ⟨0, 0⟩ ⟨1, 0⟩) =
        Except.ok (g1, t1) ∧
      undo g1 t1
          (Move.basic ⟨"w", PieceKind.king, false⟩ MoveType.move ⟨0, 0⟩ ⟨1, 0⟩) =
        Except.ok e1.grid :=
  claim_C4_step_undo_roundtrip e1.takenPiece (Reachable.init 3 3 layout0 e1 rfl)
    (rfl : e1.grid.isInside ⟨0, 0⟩ = true)
    (rfl : e1.grid.valueAt ⟨0, 0⟩ = some ⟨"w", PieceKind.king, false⟩) rfl
    (by decide)

/-- C5: init throws the invalid size error exactly when the layout length
differs from width times height (the Except model returns the error without
any engine change); on a matching length it returns an engine playing
White, with no last move, not game over, the grid populated from the piece
codes (the last scan index writing each slot wins), and the legal move
index rebuilt from the new position. -/
theorem claim_C5_init_contract {e : Engine} {layout : List String}
    (hw1 : e.grid.width = e.width) (hw2 : e.grid.height = e.height)
    (hs : e.size = e.width * e.height)
    (ho : ∀ i : Int, ¬(0 ≤ i ∧ i < (e.size : Int)) → e.moveArray i = none) :
    (layout.length ≠ e.width * e.height →
      ChessEngine.init e layout = Except.error "Invalid plan size") ∧
    (layout.length = e.width * e.height →
      ∃ e', ChessEngine.init e layout = Except.ok e' ∧
        e'.playingColor = PieceColor.WHITE ∧ e'.lastMove = none ∧
        e'.isGameOver = false ∧
        e'.grid = insertLayout e.width e.size layout e.grid ∧
        (∀ s : Int, e'.grid.squares s =
          ((List.range e.size).reverse.find? (fun i => decide (s = e.grid.idx
              ⟨((i % e.width : Nat) : Int), ((i / e.width : Nat) : Int)⟩))).elim
            (e.grid.squares s) (fun i => pieceFromCode (layout.getD i ""))) ∧
        (∀ c ∈ e'.grid.eachPoints, ∃ L,
          e'.moveArray (c.x + c.y * (e.width : Int)) = some L ∧
          ∀ m ∈ L, goodGen e'.grid PieceColor.WHITE none c m)) := by
  constructor
  · intro hne
    refine init_error e layout ?_
    rw [hs]
    exact hne
  · intro hlen
    obtain ⟨e', h1, hinv, h3, h4, h5, h6, h7, h8, h9⟩ :=
      init_ok e layout hw1 hw2 hs ho (by rw [hs]; exact hlen)
    refine ⟨e', h1, h3, h4, h5, h9, ?_, ?_⟩
    · intro s
      rw [h9]
      exact insertLayout_squares e.width e.size layout e.grid s
    · have hb := hinv.2.2.2.1
      rw [h3, h4, h6] at hb
      exact hb

/-- C5 witness: a 2 by 2 engine rejects a 2 entry layout with the invalid
size error and accepts a 4 entry layout, clearing game over. -/
theorem claim_C5_witness :
    ChessEngine.init (mkEngine 2 2) ["wk", ""] = Except.error "Invalid plan size" ∧
    ∃ e', ChessEngine.init (mkEngine 2 2) ["wk", "", "", "bk"] = Except.ok e' ∧
      e'.isGameOver = false := by
  constructor
  · exact (@claim_C5_init_contract (mkEngine 2 2) ["wk", ""]
      rfl rfl rfl (fun i _ => rfl)).1 (by decide)
  · obtain ⟨e', h1, _, _, h5, _⟩ :=
      (@claim_C5_init_contract (mkEngine 2 2) ["wk", "", "", "bk"]
        rfl rfl rfl (fun i _ => rfl)).2 (by decide)
    exact ⟨e', h1, h5⟩

/-- C6: in every reachable state, the precomputed legal moves at an
in-board square that is empty or holds a piece of the side not to move
form the empty sequence. -/
theorem claim_C6_inactive_square_empty {e : Engine} {c : Point}
    (hR : Reachable e) (hin : e.grid.isInside c = true)
    (hcase : e.grid.valueAt c = none ∨
      ∃ pc, e.grid.valueAt c = some pc ∧ pc.color ≠ e.playingColor) :
    legalMovesAt e c = [] := by
  obtain ⟨hw1, hw2, hsz, hb, ho, hEP⟩ := reachable_inv hR
  obtain ⟨L, hL, hgood⟩ := hb c (mem_eachPoints.mpr hin)
  have hLnil : L = [] := by
    rcases L with _ | ⟨m, L2⟩
    · rfl
    · exfalso
      obtain ⟨pc, hv, hcol, _⟩ := hgood m (List.mem_cons_self m L2)
      rcases hcase with h | ⟨pc2, hv2, hcol2⟩
      · rw [h] at hv
        cases hv
      · rw [hv2] at hv
        injection hv with hv
        rw [← hv] at hcol
        exact hcol2 hcol
  unfold legalMovesAt ChessEngine.getMovesAtPoint
  rw [hL, hLnil]
  rfl

/-- C6 witness: the empty square (1,1) of the reachable engine e1. -/
theorem claim_C6_witness : legalMovesAt e1 ⟨1, 1⟩ = [] :=
  claim_C6_inactive_square_empty (Reachable.init 3 3 layout0 e1 rfl) rfl
    (Or.inl rfl)

/-- C7: the full board scan is deterministic and visits every in-board
square exactly once, but in column major order, not row major: entry i of
the traversal is (i / height, i mod height), so all squares of file x = 0
come first in increasing y, then file x = 1, and so on; getState lists the
occupied squares in that order. -/
theorem claim_C7_scan_order (g : Grid) (e : Engine) :
    g.eachPoints = (List.range (g.width * g.height)).map
      (fun i => (⟨((i / g.height : Nat) : Int), ((i % g.height : Nat) : Int)⟩ : Point)) ∧
    g.eachPoints.Nodup ∧
    (∀ p : Point, p ∈ g.eachPoints ↔ g.isInside p = true) ∧
    ((ChessEngine.getState e).map Prod.snd =
      e.grid.eachPoints.filter (fun c => (e.grid.valueAt c).isSome)) :=
  ⟨eachPoints_eq_range_map g, nodup_eachPoints, fun _ => mem_eachPoints,
    getState_points e⟩

/-- C7 counterexample: on a 2 by 2 grid the traversal is
(0,0),(0,1),(1,0),(1,1) and not the claimed row major order
(0,0),(1,0),(0,1),(1,1). -/
theorem claim_C7_counterexample :
    (Grid.mk 2 2 (fun _ => none)).eachPoints =
      [⟨0, 0⟩, ⟨0, 1⟩, ⟨1, 0⟩, ⟨1, 1⟩] ∧
    (Grid.mk 2 2 (fun _ => none)).eachPoints ≠
      [⟨0, 0⟩, ⟨1, 0⟩, ⟨0, 1⟩, ⟨1, 1⟩] := by
  decide

/-- C8: the storage slot of the grid accessors is x + y * height, not the
claimed x + y * width, while the legal move index uses x + y * width; the
grid slot map is injective on in-board points when the width does not
exceed the height (the 3 by 2 counterexample shows aliasing otherwise). -/
theorem claim_C8_slot_formulas (g : Grid) (p q : Point) (v : Option Piece)
    (e : Engine) :
    (g.valueAt p = g.squares (p.x + p.y * (g.height : Int))) ∧
    ((g.setValueAt p v).squares (p.x + p.y * (g.height : Int)) = v) ∧
    (ChessEngine.getMovesAtPoint e p = e.moveArray (p.x + p.y * (e.width : Int))) ∧
    ((g.width : Int) ≤ (g.height : Int) → g.isInside p = true →
      g.isInside q = true →
      p.x + p.y * (g.height : Int) = q.x + q.y * (g.height : Int) → p = q) := by
  refine ⟨rfl, ?_, rfl, fun hwh hp hq hpq => slot_injective hwh hp hq hpq⟩
  have hidx : p.x + p.y * (g.height : Int) = g.idx p := rfl
  show (if (p.x + p.y * (g.height : Int)) = g.idx p then v else _) = v
  rw [if_pos hidx]

/-- C8 counterexample: on the 3 by 2 grid gA the distinct in-board points
(0,1) and (2,0) share storage slot 2: a queen stored at (0,1) is read back
at (2,0). -/
theorem claim_C8_counterexample :
    (gA.setValueAt ⟨0, 1⟩ (some ⟨"w", PieceKind.queen, false⟩)).valueAt ⟨2, 0⟩ =
      some ⟨"w", PieceKind.queen, false⟩ ∧
    gA.isInside ⟨0, 1⟩ = true ∧ gA.isInside ⟨2, 0⟩ = true ∧
    (⟨0, 1⟩ : Point) ≠ (⟨2, 0⟩ : Point) := by
  decide

/-- C9: a freshly constructed engine, before any init, reports game over,
and every attempted move returns success false with no move and the engine
unchanged. -/
theorem claim_C9_fresh_engine_terminal (width height : Int) (pf pt : Point)
    (pcode : Option String) :
    (mkEngine width height).isGameOver = true ∧
    ChessEngine.move (mkEngine width height) pf pt pcode =
      Except.ok ⟨false, none, mkEngine width height⟩ :=
  ⟨rfl, rfl⟩

/-- C10: the en passant capture through the public interface: the 4 by 6
game eEP0 plays the white two step advance (0,4) to (0,2), then black
takes en passant (1,2) to (0,3); the board afterwards STILL holds the
captured white pawn at (0,2): the step function records it as takenPiece
but never clears the captureAt square, so the en passant frame touches
only origin and destination and the captured pawn is not removed. -/
theorem claim_C10_en_passant_pawn_left :
    ChessEngine.init engEP layoutEP = Except.ok eEP0 ∧
    ChessEngine.move eEP0 ⟨0, 4⟩ ⟨0, 2⟩ none = Except.ok outEP1 ∧
    outEP1.success = true ∧
    ChessEngine.move eEP1 ⟨1, 2⟩ ⟨0, 3⟩ none = Except.ok outEP2 ∧
    outEP2.success = true ∧
    outEP2.move = some (Move.enPassantMove ⟨"b", PieceKind.pawn, false⟩
      MoveType.enPassant ⟨1, 2⟩ ⟨0, 3⟩ ⟨0, 2⟩) ∧
    eEP2.grid.valueAt ⟨0, 2⟩ = some ⟨"w", PieceKind.pawn, true⟩ ∧
    eEP2.grid.valueAt ⟨0, 3⟩ = some ⟨"b", PieceKind.pawn, true⟩ ∧
    eEP2.grid.valueAt ⟨1, 2⟩ = none :=
  ⟨rfl, rfl, rfl, rfl, rfl, rfl, rfl, rfl, rfl⟩

end Chess
